import Mathlib

/-!
A verification development for the agent runtime core of the `pi-mogo`
library (package `ai` and package `agent`), shallowly embedded in Lean.
Go slices become lists, Go maps become association lists, Go `int` becomes
`Int`, Go string constants stay strings, fallible Go functions return
`Except`/`Option`, and the stateful callbacks of the agent loop (steering,
follow-up, tool execution, provider streams) become explicit oracles.
`time.Now()` becomes a clock oracle `now : Nat → Int` sampled at an
incrementing tick.  Definitions come first, then the theorems.
-/

namespace ai

/-! ## JSON values and a model of `encoding/json` parsing

`ParseStreamingJSON` (pkg/ai/jsonparse.go) calls `json.Unmarshal` into a
`map[string]any`.  We model JSON values as an inductive type (numbers keep
their literal token: no claim depends on their numeric value) and Go maps
as association lists in which a later duplicate key overwrites the earlier
binding, as in a Go map. -/

inductive JsonValue where
  | null
  | bool (b : Bool)
  | num (lit : String)
  | str (s : String)
  | arr (elems : List JsonValue)
  | obj (fields : List (String × JsonValue))

abbrev JsonObject := List (String × JsonValue)

/-- Association-list lookup, modelling `m[k]` on a Go map. -/
def lookupKV (fields : JsonObject) (k : String) : Option JsonValue :=
  match fields with
  | [] => none
  | (k', v) :: rest => if k' = k then some v else lookupKV rest k

/-- Association-list insert, modelling `m[k] = v` on a Go map
(a duplicate key overwrites the earlier binding). -/
def insertKV (fields : JsonObject) (k : String) (v : JsonValue) : JsonObject :=
  match fields with
  | [] => [(k, v)]
  | (k', v') :: rest => if k' = k then (k, v) :: rest else (k', v') :: insertKV rest k v

/-- The whitespace class of JSON (RFC 8259), used by `encoding/json`
between tokens. -/
def isJsonWs (c : Char) : Bool :=
  c = ' ' || c = '\t' || c = '\n' || c = '\r'

/-- The whitespace class of Go's `unicode.IsSpace`, used by
`strings.TrimSpace` (the Latin-1 portion; exotic Unicode space code points
behave the same for every claim). -/
def isGoSpace (c : Char) : Bool :=
  c = ' ' || c = '\t' || c = '\n' || c = '\r' ||
    c.toNat = 11 || c.toNat = 12 || c.toNat = 133 || c.toNat = 160

def isDigitChar (c : Char) : Bool := '0' ≤ c && c ≤ '9'

def hexVal (c : Char) : Option Nat :=
  let n := c.toNat
  if 48 ≤ n && n ≤ 57 then some (n - 48)
  else if 97 ≤ n && n ≤ 102 then some (n - 87)
  else if 65 ≤ n && n ≤ 70 then some (n - 55)
  else none

def unescapeChar (c : Char) : Option Char :=
  if c = '"' then some '"'
  else if c = '\\' then some '\\'
  else if c = '/' then some '/'
  else if c = 'b' then some (Char.ofNat 8)
  else if c = 'f' then some (Char.ofNat 12)
  else if c = 'n' then some '\n'
  else if c = 'r' then some '\r'
  else if c = 't' then some '\t'
  else none

def takeDigits (cs : List Char) : List Char × List Char :=
  (cs.takeWhile isDigitChar, cs.dropWhile isDigitChar)

/-- Fractional part of a JSON number literal. -/
def parseJNumFrac (lit : List Char) (cs : List Char) : Option (List Char × List Char) :=
  match cs with
  | '.' :: r =>
    let (ds, r2) := takeDigits r
    if ds = [] then none else some (lit ++ '.' :: ds, r2)
  | _ => some (lit, cs)

/-- Exponent part of a JSON number literal. -/
def parseJNumExp (lit : List Char) (cs : List Char) : Option (List Char × List Char) :=
  match cs with
  | c :: r =>
    if c = 'e' || c = 'E' then
      let (sgn, r1) := match r with
        | s :: r' => if s = '+' || s = '-' then ([s], r') else ([], s :: r')
        | [] => ([], ([] : List Char))
      let (ds, r2) := takeDigits r1
      if ds = [] then none else some (lit ++ c :: (sgn ++ ds), r2)
    else some (lit, c :: r)
  | [] => some (lit, [])

/-- JSON number literal (sign, integer part without leading zeros,
optional fraction and exponent).  The literal token is kept verbatim. -/
def parseJNum (cs : List Char) : Option (JsonValue × List Char) :=
  let (sign, cs1) := match cs with
    | '-' :: r => (['-'], r)
    | _ => (([] : List Char), cs)
  match cs1 with
  | [] => none
  | c :: r1 =>
    if c = '0' then
      match parseJNumFrac (sign ++ ['0']) r1 with
      | none => none
      | some (lit2, r2) =>
        match parseJNumExp lit2 r2 with
        | none => none
        | some (lit3, r3) => some (.num lit3.asString, r3)
    else if isDigitChar c then
      let (ds, rd) := takeDigits (c :: r1)
      match parseJNumFrac (sign ++ ds) rd with
      | none => none
      | some (lit2, r2) =>
        match parseJNumExp lit2 r2 with
        | none => none
        | some (lit3, r3) => some (.num lit3.asString, r3)
    else none

mutual

/-- Recursive-descent JSON value parser (fuel-indexed; every recursive
call is made after consuming at least one input character, so fuel
`length + 1` never runs out on an input the grammar accepts). -/
def parseJValue : Nat → List Char → Option (JsonValue × List Char)
  | 0, _ => none
  | fuel+1, cs =>
    match cs.dropWhile isJsonWs with
    | [] => none
    | c :: rest =>
      if c = '{' then parseJObjBody fuel rest
      else if c = '[' then parseJArrBody fuel rest
      else if c = '"' then
        match parseJStr fuel rest [] with
        | some (s, r) => some (.str s, r)
        | none => none
      else if c = 't' then
        if ['r','u','e'].isPrefixOf rest then some (.bool true, rest.drop 3) else none
      else if c = 'f' then
        if ['a','l','s','e'].isPrefixOf rest then some (.bool false, rest.drop 4) else none
      else if c = 'n' then
        if ['u','l','l'].isPrefixOf rest then some (.null, rest.drop 3) else none
      else parseJNum (c :: rest)

/-- Object body, after the opening brace. -/
def parseJObjBody : Nat → List Char → Option (JsonValue × List Char)
  | 0, _ => none
  | fuel+1, cs =>
    match cs.dropWhile isJsonWs with
    | '}' :: rest => some (.obj [], rest)
    | other => parseJMember fuel other []

/-- One `"key": value` member, then the object tail. -/
def parseJMember : Nat → List Char → JsonObject → Option (JsonValue × List Char)
  | 0, _, _ => none
  | fuel+1, cs, acc =>
    match cs.dropWhile isJsonWs with
    | '"' :: rest =>
      match parseJStr fuel rest [] with
      | some (k, r1) =>
        match r1.dropWhile isJsonWs with
        | ':' :: r2 =>
          match parseJValue fuel r2 with
          | some (v, r3) => parseJObjTail fuel r3 (insertKV acc k v)
          | none => none
        | _ => none
      | none => none
    | _ => none

/-- Object tail: either a comma and another member, or the closing brace. -/
def parseJObjTail : Nat → List Char → JsonObject → Option (JsonValue × List Char)
  | 0, _, _ => none
  | fuel+1, cs, acc =>
    match cs.dropWhile isJsonWs with
    | '}' :: rest => some (.obj acc, rest)
    | ',' :: rest => parseJMember fuel rest acc
    | _ => none

/-- Array body, after the opening bracket. -/
def parseJArrBody : Nat → List Char → Option (JsonValue × List Char)
  | 0, _ => none
  | fuel+1, cs =>
    match cs.dropWhile isJsonWs with
    | ']' :: rest => some (.arr [], rest)
    | other =>
      match parseJValue fuel other with
      | some (v, r1) => parseJArrTail fuel r1 [v]
      | none => none

/-- Array tail: either a comma and another element, or the closing bracket. -/
def parseJArrTail : Nat → List Char → List JsonValue → Option (JsonValue × List Char)
  | 0, _, _ => none
  | fuel+1, cs, acc =>
    match cs.dropWhile isJsonWs with
    | ']' :: rest => some (.arr acc.reverse, rest)
    | ',' :: rest =>
      match parseJValue fuel rest with
      | some (v, r1) => parseJArrTail fuel r1 (v :: acc)
      | none => none
    | _ => none

/-- String body, after the opening quote; decodes the standard escapes
and `\uXXXX` (surrogate pairing abstracted: no claim inspects decoded
code points). -/
def parseJStr : Nat → List Char → List Char → Option (String × List Char)
  | 0, _, _ => none
  | fuel+1, cs, acc =>
    match cs with
    | [] => none
    | '"' :: rest => some (acc.reverse.asString, rest)
    | '\\' :: rest =>
      match rest with
      | 'u' :: h1 :: h2 :: h3 :: h4 :: r4 =>
        match hexVal h1, hexVal h2, hexVal h3, hexVal h4 with
        | some a, some b, some c', some d =>
          parseJStr fuel r4 (Char.ofNat ((((a*16+b)*16+c')*16+d) % 1114112) :: acc)
        | _, _, _, _ => none
      | e :: r2 =>
        match unescapeChar e with
        | some c' => parseJStr fuel r2 (c' :: acc)
        | none => none
      | [] => none
    | c :: rest => if c.toNat < 32 then none else parseJStr fuel rest (c :: acc)

end

/-- Drop trailing characters satisfying `p` (Go `strings.TrimRight` with a
character-class cutset). -/
def dropLastWhileL (p : Char → Bool) (cs : List Char) : List Char :=
  (cs.reverse.dropWhile p).reverse

/-- `strings.TrimSpace` on the underlying character list. -/
def trimSpaceL (cs : List Char) : List Char :=
  dropLastWhileL isGoSpace (cs.dropWhile isGoSpace)

/-- `strings.TrimSpace`. -/
def trimSpace (s : String) : String := (trimSpaceL s.toList).asString

/-- Models `json.Unmarshal([]byte(s), &m)` for `m : map[string]any`:
surrounding whitespace is ignored, the payload must be exactly one JSON
value, and it must be an object (or `null`, which leaves the map nil —
indistinguishable from empty for every read, so modelled as `[]`). -/
def jsonUnmarshalObject (s : String) : Option JsonObject :=
  let cs := trimSpaceL s.toList
  match parseJValue (cs.length + 1) cs with
  | some (v, rest) =>
    if rest = [] then
      match v with
      | .obj fs => some fs
      | .null => some []
      | _ => none
    else none
  | none => none

/-! ## pkg/ai/jsonparse.go -/

/-- State of the brace/bracket/string scanner of `tryRepairAndParse`. -/
structure ScanState where
  openBraces : Int
  openBrackets : Int
  inString : Bool
  escaped : Bool

/-- One step of the scanner loop (`for _, c := range trimmed`). -/
def scanStep (st : ScanState) (c : Char) : ScanState :=
  if st.escaped then { st with escaped := false }
  else if c = '\\' && st.inString then { st with escaped := true }
  else if c = '"' then { st with inString := !st.inString }
  else if st.inString then st
  else if c = '{' then { st with openBraces := st.openBraces + 1 }
  else if c = '}' then { st with openBraces := st.openBraces - 1 }
  else if c = '[' then { st with openBrackets := st.openBrackets + 1 }
  else if c = ']' then { st with openBrackets := st.openBrackets - 1 }
  else st

/-- `tryRepairAndParse` (pkg/ai/jsonparse.go): trim trailing whitespace
and a single trailing comma, count unclosed braces/brackets outside
strings, close an unterminated string, append the missing closers, and
retry a strict parse. -/
def tryRepairAndParse (s : String) : Option JsonObject :=
  let trimmed0 := dropLastWhileL (fun c => c = ' ' || c = '\t' || c = '\n' || c = '\r') s.toList
  let trimmed := if trimmed0.getLast? = some ',' then trimmed0.dropLast else trimmed0
  let st := trimmed.foldl scanStep ⟨0, 0, false, false⟩
  let t1 := if st.inString then trimmed ++ ['"'] else trimmed
  let t2 := t1 ++ List.replicate st.openBrackets.toNat ']'
  let t3 := t2 ++ List.replicate st.openBraces.toNat '}'
  jsonUnmarshalObject t3.asString

/-- `ParseStreamingJSON` (pkg/ai/jsonparse.go): trim, try a strict parse,
fall back to repair, and return the empty mapping on total failure. -/
def ParseStreamingJSON (s : String) : JsonObject :=
  let trimmed := trimSpace s
  if trimmed = "" then []
  else
    match jsonUnmarshalObject trimmed with
    | some result => result
    | none =>
      match tryRepairAndParse trimmed with
      | some result => result
      | none => []

/-! ## pkg/ai types (part_001 of src/unnamed)

Content blocks and messages are Go structs of pointers, of which by
convention exactly one is non-nil; we embed them literally as structures
of `Option`s.  The JSON `Type` discriminator constants kept inside each
struct purely for serialisation are omitted; `any`-typed payloads
(`Details`, `Custom`) become an opaque `GoAny`. -/

/-- An opaque value of Go type `any` (only carried around, never
inspected, by the code under verification). -/
structure GoAny where
  tag : Nat
deriving DecidableEq

/-- Go `map[string]any` tool-call arguments; `none` models a nil map. -/
abbrev Arguments := Option JsonObject

def RoleUser : String := "user"
def RoleAssistant : String := "assistant"
def RoleToolResult : String := "toolResult"

def StopReasonStop : String := "stop"
def StopReasonLength : String := "length"
def StopReasonToolUse : String := "toolUse"
def StopReasonError : String := "error"
def StopReasonAborted : String := "aborted"

structure TextContent where
  text : String
  textSignature : String := ""

structure ThinkingContent where
  thinking : String
  thinkingSignature : String := ""

structure ImageContent where
  data : String
  mimeType : String

structure ToolCall where
  id : String
  name : String
  arguments : Arguments
  thoughtSignature : String := ""

/-- `Content` is a Go struct of four pointers, one non-nil by convention. -/
structure Content where
  text : Option TextContent := none
  thinking : Option ThinkingContent := none
  image : Option ImageContent := none
  toolCall : Option ToolCall := none

def NewTextContent (text : String) : Content := { text := some { text := text } }

def NewThinkingContent (thinking : String) : Content := { thinking := some { thinking := thinking } }

def NewToolCallContent (id name : String) (args : Arguments) : Content :=
  { toolCall := some { id := id, name := name, arguments := args } }

/-- Monetary cost by category (float64 in Go; modelled as exact rationals —
see the cost-linearity claim, which is about the floating-point code). -/
structure Cost where
  input : ℚ := 0
  output : ℚ := 0
  cacheRead : ℚ := 0
  cacheWrite : ℚ := 0
  total : ℚ := 0
deriving DecidableEq

structure Usage where
  input : Int := 0
  output : Int := 0
  cacheRead : Int := 0
  cacheWrite : Int := 0
  totalTokens : Int := 0
  cost : Cost := {}
deriving DecidableEq

structure UserMessage where
  role : String := RoleUser
  content : List Content
  timestamp : Int

structure AssistantMessage where
  role : String := RoleAssistant
  content : List Content
  api : String := ""
  provider : String := ""
  model : String := ""
  usage : Usage := {}
  stopReason : String
  errorMessage : String := ""
  timestamp : Int

structure ToolResultMessage where
  role : String := RoleToolResult
  toolCallID : String
  toolName : String
  content : List Content
  details : Option GoAny := none
  isError : Bool
  timestamp : Int

/-- `Message` is a Go struct of three pointers, one non-nil by convention. -/
structure Message where
  user : Option UserMessage := none
  assistant : Option AssistantMessage := none
  toolResult : Option ToolResultMessage := none

/-- `Message.Role()`: the role of whichever variant is set, `""` if none. -/
def Message.Role (m : Message) : String :=
  match m.user, m.assistant, m.toolResult with
  | some _, _, _ => RoleUser
  | none, some _, _ => RoleAssistant
  | none, none, some _ => RoleToolResult
  | none, none, none => ""

structure ModelCost where
  input : ℚ := 0
  output : ℚ := 0
  cacheRead : ℚ := 0
  cacheWrite : ℚ := 0
deriving DecidableEq

structure Model where
  id : String
  name : String := ""
  api : String := ""
  provider : String := ""
  baseURL : String := ""
  reasoning : Bool := false
  input : List String := []
  cost : ModelCost := {}
  contextWindow : Int := 0
  maxTokens : Int := 0
  headers : List (String × String) := []

structure Tool where
  name : String
  description : String := ""
  parameters : Option JsonObject := none

structure LLMContext where
  systemPrompt : String := ""
  messages : List Message := []
  tools : List Tool := []

structure ThinkingBudgets where
  minimal : Option Int := none
  low : Option Int := none
  medium : Option Int := none
  high : Option Int := none

structure StreamOptions where
  temperature : Option ℚ := none
  maxTokens : Option Int := none
  apiKey : String := ""
  cacheRetention : String := ""
  sessionID : String := ""
  headers : List (String × String) := []
  maxRetryDelayMs : Option Int := none

structure SimpleStreamOptions where
  streamOptions : StreamOptions := {}
  reasoning : String := ""
  thinkingBudgets : Option ThinkingBudgets := none

def EventStart : String := "start"
def EventTextStart : String := "text_start"
def EventTextDelta : String := "text_delta"
def EventTextEnd : String := "text_end"
def EventThinkingStart : String := "thinking_start"
def EventThinkingDelta : String := "thinking_delta"
def EventThinkingEnd : String := "thinking_end"
def EventToolCallStart : String := "toolcall_start"
def EventToolCallDelta : String := "toolcall_delta"
def EventToolCallEnd : String := "toolcall_end"
def EventDone : String := "done"
def EventError : String := "error"

/-- A single event of a streaming LLM response. -/
structure AssistantMessageEvent where
  type : String
  contentIndex : Int := 0
  delta : String := ""
  content : String := ""
  partialMsg : Option AssistantMessage := none
  message : Option AssistantMessage := none
  error : Option AssistantMessage := none
  toolCallData : Option ToolCall := none
  reason : String := ""

/-! ## Overflow detection (part_002 of src/unnamed)

The fifteen `overflowPatterns` regexes and `noBodyPattern` are embedded as
a list of pattern descriptors together with an interpreter: every regex in
the source is an unanchored case-insensitive match built from literal
text, `.*` gaps (`.` excludes the newline), `\d+` digit runs and `[_ ]`
separator classes, and `noBodyPattern` is anchored with `\s*` runs and an
optional literal. -/

def toLowerAscii (s : String) : String :=
  (s.toList.map fun c =>
    if 'A' ≤ c && c ≤ 'Z' then Char.ofNat (c.toNat + 32) else c).asString

/-- Unanchored containment of a literal. -/
def containsSubL (needle : List Char) : List Char → Bool
  | [] => needle.isEmpty
  | c :: rest => needle.isPrefixOf (c :: rest) || containsSubL needle rest

/-- After the `a` of `a.*b`: a run of non-newline characters, then `b`. -/
def gapTailMatch (b : List Char) : List Char → Bool
  | [] => b.isEmpty
  | c :: rest => b.isPrefixOf (c :: rest) || (c ≠ '\n' && gapTailMatch b rest)

/-- Unanchored `a.*b` (with `.` excluding the newline, as in Go regexp). -/
def matchGapL (a b : List Char) : List Char → Bool
  | [] => a.isEmpty && gapTailMatch b []
  | c :: rest =>
    (a.isPrefixOf (c :: rest) && gapTailMatch b (List.drop a.length (c :: rest))) ||
      matchGapL a b rest

/-- `lit` followed immediately by at least one digit, at this position. -/
def litDigitsAt (lit : List Char) (cs : List Char) : Bool :=
  lit.isPrefixOf cs &&
    (match cs.drop lit.length with
     | d :: _ => isDigitChar d
     | [] => false)

/-- Unanchored `lit\d+`. -/
def matchLitDigitsL (lit : List Char) : List Char → Bool
  | [] => false
  | c :: rest => litDigitsAt lit (c :: rest) || matchLitDigitsL lit rest

/-- `a\d+b` at this position (`b` starts with a non-digit in every pattern
of the source, so the maximal digit run is the only viable split). -/
def litDigitsLitAt (a b : List Char) (cs : List Char) : Bool :=
  a.isPrefixOf cs &&
    (let rest := cs.drop a.length
     let (ds, r2) := takeDigits rest
     !ds.isEmpty && b.isPrefixOf r2)

/-- Unanchored `a\d+b`. -/
def matchLitDigitsLitL (a b : List Char) : List Char → Bool
  | [] => false
  | c :: rest => litDigitsLitAt a b (c :: rest) || matchLitDigitsLitL a b rest

/-- One of the compiled `overflowPatterns` of part_002. -/
inductive OverflowPattern where
  | phrase (lit : String)
  | gap (a b : String)
  | litDigits (lit : String)
  | litDigitsLit (a b : String)
  | seps (a b c : String)

/-- `(?i)` case-insensitive match of a pattern descriptor against `s`. -/
def matchPattern (p : OverflowPattern) (s : String) : Bool :=
  let ls := (toLowerAscii s).toList
  match p with
  | .phrase lit => containsSubL lit.toList ls
  | .gap a b => matchGapL a.toList b.toList ls
  | .litDigits lit => matchLitDigitsL lit.toList ls
  | .litDigitsLit a b => matchLitDigitsLitL a.toList b.toList ls
  | .seps a b c =>
    containsSubL (a ++ "_" ++ b ++ "_" ++ c).toList ls ||
    containsSubL (a ++ "_" ++ b ++ " " ++ c).toList ls ||
    containsSubL (a ++ " " ++ b ++ "_" ++ c).toList ls ||
    containsSubL (a ++ " " ++ b ++ " " ++ c).toList ls

/-- The `overflowPatterns` list of part_002, in source order. -/
def overflowPatterns : List OverflowPattern := [
  .phrase "prompt is too long",
  .phrase "input is too long for requested model",
  .phrase "exceeds the context window",
  .gap "input token count" "exceeds the maximum",
  .litDigits "maximum prompt length is ",
  .phrase "reduce the length of the messages",
  .litDigitsLit "maximum context length is " " tokens",
  .litDigits "exceeds the limit of ",
  .phrase "exceeds the available context size",
  .phrase "greater than the context length",
  .phrase "context window exceeds limit",
  .phrase "exceeded model token limit",
  .seps "context" "length" "exceeded",
  .phrase "too many tokens",
  .phrase "token limit exceeded"]

/-- The Go regexp `\s` class. -/
def isRegexSpace (c : Char) : Bool :=
  c = ' ' || c = '\t' || c = '\n' || c = '\r' || c.toNat = 11 || c.toNat = 12

/-- `noBodyPattern`: `(?i)^4(00|13)\s*(status code)?\s*\(no body\)`. -/
def noBodyMatchL (cs : List Char) : Bool :=
  let chk (rest : List Char) : Bool :=
    let r1 := rest.dropWhile isRegexSpace
    let r2 := if "status code".toList.isPrefixOf r1 then r1.drop 11 else r1
    let r3 := r2.dropWhile isRegexSpace
    "(no body)".toList.isPrefixOf r3
  if "400".toList.isPrefixOf cs then chk (cs.drop 3)
  else if "413".toList.isPrefixOf cs then chk (cs.drop 3)
  else false

def noBodyMatch (s : String) : Bool := noBodyMatchL (toLowerAscii s).toList

/-- `IsContextOverflow` (part_002): error text matched against the overflow
patterns and the bodyless-4xx pattern, then silent-overflow detection on
token counts. -/
def IsContextOverflow (msg : AssistantMessage) (contextWindow : Int) : Bool :=
  (decide (msg.stopReason = StopReasonError) && !(msg.errorMessage == "") &&
    (overflowPatterns.any (fun p => matchPattern p msg.errorMessage) ||
      noBodyMatch msg.errorMessage)) ||
  (decide (contextWindow > 0) && decide (msg.stopReason = StopReasonStop) &&
    decide (msg.usage.input + msg.usage.cacheRead > contextWindow))

/-! ## pkg/ai/eventstream.go

The event stream is embedded as a state machine: the buffered event
channel becomes a queue (its 64-slot capacity only throttles a concurrent
producer and is not observable in the sequential model), the one-slot
result channel becomes an `Option`, and `sync.Once` around `close`
becomes the `closed` flag.  An operation that would block forever or
panic (send on a full result channel, send on a closed channel) returns
`none`. -/

structure EventStreamCore (T R : Type) where
  isComplete : T → Bool
  extractResult : T → R

structure EventStreamState (T R : Type) where
  buf : List T
  closed : Bool
  resultBuf : Option R
deriving DecidableEq

def NewEventStreamState (T R : Type) : EventStreamState T R :=
  { buf := [], closed := false, resultBuf := none }

/-- `Push`: on a terminal event, send the extracted result on the result
channel (blocks if one is already there), deliver the event, and close
the channel once. -/
def pushOp {T R : Type} (c : EventStreamCore T R) (event : T) (s : EventStreamState T R) :
    Option (EventStreamState T R) :=
  if c.isComplete event then
    match s.resultBuf with
    | some _ => none
    | none =>
      if s.closed then none
      else some { buf := s.buf ++ [event], closed := true,
                  resultBuf := some (c.extractResult event) }
  else if s.closed then none
  else some { s with buf := s.buf ++ [event] }

/-- `End`: non-blocking send of an explicit result (kept only if the slot
is empty), then close the channel once. -/
def endOp {T R : Type} (result : R) (s : EventStreamState T R) : EventStreamState T R :=
  { s with
    resultBuf := match s.resultBuf with
      | some r => some r
      | none => some result,
    closed := true }

/-- `Result`: receive from the result channel (blocks — `none` — when the
slot is empty; the received value is removed from the one-slot channel). -/
def resultOp {T R : Type} (s : EventStreamState T R) : Option (R × EventStreamState T R) :=
  match s.resultBuf with
  | some r => some (r, { s with resultBuf := none })
  | none => none

def natStreamCore : EventStreamCore Nat Nat := { isComplete := fun _ => true, extractResult := id }

/-! ## pkg/ai/validation.go -/

/-- Insertion sort of object fields by key (Go's `json.Marshal` emits map
keys in sorted order). -/
def sortFieldsInsert (f : String × JsonValue) : JsonObject → JsonObject
  | [] => [f]
  | g :: rest => if f.1 ≤ g.1 then f :: g :: rest else g :: sortFieldsInsert f rest

def sortFields : JsonObject → JsonObject
  | [] => []
  | f :: rest => sortFieldsInsert f (sortFields rest)

mutual

/-- JSON rendering of a value, modelling `json.MarshalIndent` (map keys
sorted; the indentation whitespace is abstracted — no claim inspects the
rendered text). -/
def renderJ : JsonValue → String
  | .null => "null"
  | .bool true => "true"
  | .bool false => "false"
  | .num lit => lit
  | .str s => "\"" ++ s ++ "\""
  | .arr xs => "[" ++ renderArrJ xs ++ "]"
  | .obj fs => "\x7b" ++ renderObjJ fs ++ "\x7d"

def renderArrJ : List JsonValue → String
  | [] => ""
  | [x] => renderJ x
  | x :: y :: xs => renderJ x ++ "," ++ renderArrJ (y :: xs)

def renderObjJ : List (String × JsonValue) → String
  | [] => ""
  | [(k, v)] => "\"" ++ k ++ "\":" ++ renderJ v
  | (k, v) :: f :: fs => "\"" ++ k ++ "\":" ++ renderJ v ++ "," ++ renderObjJ (f :: fs)

end

def jsonMarshalObject (args : JsonObject) : String := renderJ (.obj (sortFields args))

/-- `ValidateToolArguments` (pkg/ai/validation.go): default a nil
arguments map, then check that every name in the schema's `required`
list (when present and a list) exists among the argument keys; on
missing keys report them together with the received arguments. -/
def ValidateToolArguments (tool : Tool) (tc : ToolCall) : Except String JsonObject :=
  let args := match tc.arguments with
    | some a => a
    | none => []
  match tool.parameters with
  | none => .ok args
  | some schema =>
    match lookupKV schema "required" with
    | some (.arr reqList) =>
      let missing := reqList.filterMap (fun r =>
        match r with
        | .str name => if (lookupKV args name).isNone then some name else none
        | _ => none)
      if missing.isEmpty then .ok args
      else .error ("validation failed for tool \"" ++ tc.name ++ "\":\n  - missing required: " ++
        String.intercalate ", " missing ++ "\n\nReceived arguments:\n" ++ jsonMarshalObject args)
    | _ => .ok args

end ai

namespace agent

/-! ## pkg/agent/types.go -/

/-- `AgentMessage` wraps a standard `Message` with an optional opaque
`Custom` payload. -/
structure AgentMessage where
  message : ai.Message
  custom : Option ai.GoAny := none

def NewAgentMessageFromMessage (m : ai.Message) : AgentMessage := { message := m }

/-- `AgentMessage.Role()` (promoted from the embedded `Message`). -/
def AgentMessage.Role (m : AgentMessage) : String := m.message.Role

/-- `IsLLMMessage`: a standard LLM message, not custom. -/
def AgentMessage.IsLLMMessage (m : AgentMessage) : Bool :=
  m.custom.isNone && !(m.Role == "")

structure AgentToolResult where
  content : List ai.Content
  details : Option ai.GoAny := none

/-- `AgentTool`: a tool plus a label and an execute capability.  The
execute function is modelled as a pure oracle from the tool-call id and
validated arguments to the emitted progress updates and the outcome
(`(AgentToolResult, error)` in Go). -/
structure AgentTool where
  tool : ai.Tool
  label : String := ""
  execute : String → ai.JsonObject → (List AgentToolResult × Except String AgentToolResult)

structure AgentContext where
  systemPrompt : String := ""
  messages : List AgentMessage := []
  tools : List AgentTool := []

def AgentEventStart : String := "agent_start"
def AgentEventEnd : String := "agent_end"
def TurnEventStart : String := "turn_start"
def TurnEventEnd : String := "turn_end"
def MessageEventStart : String := "message_start"
def MessageEventUpdate : String := "message_update"
def MessageEventEnd : String := "message_end"
def ToolExecutionEventStart : String := "tool_execution_start"
def ToolExecutionEventUpdate : String := "tool_execution_update"
def ToolExecutionEventEnd : String := "tool_execution_end"

/-- `AgentEvent` (pkg/agent/types.go): one struct carrying the payload
fields of every event kind. -/
structure AgentEvent where
  type : String
  messages : List AgentMessage := []
  message : Option AgentMessage := none
  assistantMessageEvent : Option ai.AssistantMessageEvent := none
  toolResults : List ai.ToolResultMessage := []
  toolCallID : String := ""
  toolName : String := ""
  args : ai.Arguments := none
  partialResult : Option AgentToolResult := none
  result : Option AgentToolResult := none
  isError : Bool := false

/-! ## pkg/agent/agent.go: DefaultConvertToLLM -/

/-- `DefaultConvertToLLM`: keep the messages whose role is user,
assistant, or tool-result (the error result is always nil in the source). -/
def DefaultConvertToLLM (messages : List AgentMessage) : Except String (List ai.Message) :=
  .ok (messages.filterMap fun m =>
    let r := m.Role
    if r = ai.RoleUser ∨ r = ai.RoleAssistant ∨ r = ai.RoleToolResult then some m.message
    else none)

/-- A user message carrying a non-null custom payload. -/
def customTaggedUser : AgentMessage :=
  { message := { user := some { content := [ai.NewTextContent "hi"], timestamp := 0 } },
    custom := some ⟨0⟩ }

/-! ## pkg/agent/agent.go: the facade

`Agent` holds its mutable fields under one mutex; the sequential model
carries those fields directly.  The Go listener registry is a
`map[int]func(AgentEvent)` with an incrementing id; listener functions
are opaque to the facade, so they are registered as opaque values.  The
`abortCancel` handle and the context it cancels become the pair
`abortHandle` (handle present) / `runCancelled` (context cancelled). -/

structure AgentState where
  systemPrompt : String := ""
  model : Option ai.Model := none
  thinkingLevel : String := "off"
  tools : List AgentTool := []
  messages : List AgentMessage := []
  isStreaming : Bool := false
  streamMessage : Option AgentMessage := none
  pendingToolCalls : List String := []
  error : String := ""

/-- Listener registration (`Subscribe` body): insert under the next id. -/
def registerListener {α : Type} (l : List (Nat × α)) (nextID : Nat) (fn : α) :
    List (Nat × α) × Nat :=
  (l ++ [(nextID, fn)], nextID + 1)

structure Agent where
  state : AgentState := {}
  listeners : List (Nat × ai.GoAny) := []
  nextListenerID : Nat := 0
  abortHandle : Bool := false
  runCancelled : Bool := false
  convertToLLM : List AgentMessage → Except String (List ai.Message) := DefaultConvertToLLM
  transformContext : Option (List AgentMessage → Except String (List AgentMessage)) := none
  steeringQueue : List AgentMessage := []
  followUpQueue : List AgentMessage := []
  steeringMode : String := "one-at-a-time"
  followUpMode : String := "one-at-a-time"
  sessionID : String := ""
  thinkingBudgets : Option ai.ThinkingBudgets := none
  maxRetryDelayMs : Option Int := none
  running : Bool := false

/-- `Agent.Abort()`: under the lock, call the abort-cancel handle if one
is present (cancelling the current run's context). -/
def Agent.Abort (a : Agent) : Agent :=
  if a.abortHandle then { a with runCancelled := true } else a

/-! ## Listener dispatch (Agent.runLoop observer, agent.go lines 458-467)

The snapshot loop `for _, fn := range a.listeners` iterates a Go map,
whose iteration order is unspecified; the snapshot slice is then invoked
in slice order.  An iteration order is any enumeration of the map's keys. -/

def lookupKey {α : Type} (l : List (Nat × α)) (k : Nat) : Option α :=
  match l with
  | [] => none
  | (k', v) :: rest => if k' = k then some v else lookupKey rest k

/-- The listener snapshot taken under the lock: the values of the
registry in the order `order` in which the map range happens to walk the
keys. -/
def snapshotListeners {α : Type} (l : List (Nat × α)) (order : List Nat) : List α :=
  order.filterMap (fun k => lookupKey l k)

/-- An admissible Go map iteration order: some enumeration of the keys. -/
def IsMapIterationOrder {α : Type} (l : List (Nat × α)) (order : List Nat) : Prop :=
  order.Perm (l.map Prod.fst)

/-! ## pkg/agent/loop.go: tool execution

Oracles: the steering / follow-up providers become `Nat`-indexed poll
oracles (`MsgOracle`), and `time.Now()` a clock `now : Nat → Int` sampled
at an incrementing tick. -/

abbrev MsgOracle := Nat → Except String (List AgentMessage)

/-- `findTool`: first tool with the given name. -/
def findTool (tools : List AgentTool) (name : String) : Option AgentTool :=
  match tools with
  | [] => none
  | t :: rest => if t.tool.name = name then some t else findTool rest name

/-- The tool calls of an assistant message's content, in order. -/
def extractToolCalls (content : List ai.Content) : List ai.ToolCall :=
  content.filterMap (fun c => c.toolCall)

/-- Outcome of the resolve/validate/invoke part of one tool call. -/
structure CallOutcome where
  result : AgentToolResult
  isError : Bool
  updates : List AgentToolResult

/-- Lines 319-365 of loop.go: resolve the tool, validate the arguments,
invoke `Execute`; failures become error results with the failure text. -/
def execOneCall (tools : List AgentTool) (tc : ai.ToolCall) : CallOutcome :=
  match findTool tools tc.name with
  | none =>
    { result := { content := [ai.NewTextContent ("Tool " ++ tc.name ++ " not found")] },
      isError := true, updates := [] }
  | some tool =>
    match ai.ValidateToolArguments tool.tool tc with
    | .error e =>
      { result := { content := [ai.NewTextContent e] }, isError := true, updates := [] }
    | .ok args =>
      let (updates, outcome) := tool.execute tc.id args
      match outcome with
      | .error e =>
        { result := { content := [ai.NewTextContent e] }, isError := true, updates := updates }
      | .ok r => { result := r, isError := false, updates := updates }

def toolStartEvent (tc : ai.ToolCall) : AgentEvent :=
  { type := ToolExecutionEventStart, toolCallID := tc.id, toolName := tc.name,
    args := tc.arguments }

def toolUpdateEvent (tc : ai.ToolCall) (pr : AgentToolResult) : AgentEvent :=
  { type := ToolExecutionEventUpdate, toolCallID := tc.id, toolName := tc.name,
    args := tc.arguments, partialResult := some pr }

def toolEndEvent (tc : ai.ToolCall) (result : AgentToolResult) (isError : Bool) : AgentEvent :=
  { type := ToolExecutionEventEnd, toolCallID := tc.id, toolName := tc.name,
    result := some result, isError := isError }

def msgStartEvent (m : AgentMessage) : AgentEvent :=
  { type := MessageEventStart, message := some m }

def msgEndEvent (m : AgentMessage) : AgentEvent :=
  { type := MessageEventEnd, message := some m }

def turnStartEvent : AgentEvent := { type := TurnEventStart }

def turnEndEvent (m : AgentMessage) (trs : List ai.ToolResultMessage) : AgentEvent :=
  { type := TurnEventEnd, message := some m, toolResults := trs }

def agentStartEvent : AgentEvent := { type := AgentEventStart }

def agentEndEvent (msgs : List AgentMessage) : AgentEvent :=
  { type := AgentEventEnd, messages := msgs }

/-- One executed call of the `executeToolCalls` loop body (before the
steering check): the tool-result message it records and the events it
pushes (`tool_execution_start`, the progress updates, `tool_execution_end`
and the `message_start`/`message_end` pair for the tool result). -/
def execCallStep (tools : List AgentTool) (tc : ai.ToolCall) (ts : Int) :
    ai.ToolResultMessage × List AgentEvent :=
  let out := execOneCall tools tc
  let trMsg : ai.ToolResultMessage :=
    { toolCallID := tc.id, toolName := tc.name, content := out.result.content,
      details := out.result.details, isError := out.isError, timestamp := ts }
  let am := NewAgentMessageFromMessage { toolResult := some trMsg }
  (trMsg,
    toolStartEvent tc :: (out.updates.map (toolUpdateEvent tc) ++
      [toolEndEvent tc out.result out.isError, msgStartEvent am, msgEndEvent am]))

/-- `skipToolCall` (loop.go): the synthetic skipped result and its full
start/end and message event pairs. -/
def skipToolCall (tc : ai.ToolCall) (ts : Int) : ai.ToolResultMessage × List AgentEvent :=
  let result : AgentToolResult :=
    { content := [ai.NewTextContent "Skipped due to queued user message."] }
  let trMsg : ai.ToolResultMessage :=
    { toolCallID := tc.id, toolName := tc.name, content := result.content,
      isError := true, timestamp := ts }
  let am := NewAgentMessageFromMessage { toolResult := some trMsg }
  (trMsg, [toolStartEvent tc, toolEndEvent tc result true, msgStartEvent am, msgEndEvent am])

/-- Skip every remaining call of the batch. -/
def skipAll (now : Nat → Int) : List ai.ToolCall → Nat →
    (List ai.ToolResultMessage × List AgentEvent × Nat)
  | [], tick => ([], [], tick)
  | tc :: rest, tick =>
    let step := skipToolCall tc (now tick)
    let r := skipAll now rest (tick + 1)
    (step.1 :: r.1, step.2 ++ r.2.1, r.2.2)

/-- `err == nil && len(steering) > 0`: the poll result interrupts the batch. -/
def isInterrupt (r : Except String (List AgentMessage)) : Bool :=
  match r with
  | .ok msgs => !msgs.isEmpty
  | .error _ => false

def steerVal (r : Except String (List AgentMessage)) : List AgentMessage :=
  match r with
  | .ok msgs => msgs
  | .error _ => []

/-- The loop of `executeToolCalls`: execute each call in order; after each
call poll the steering oracle (when configured) and on a non-empty answer
record it, skip the remaining calls, and stop.  Returns the results, the
interrupting steering messages, the pushed events, and the advanced poll
index and clock tick. -/
def execCallsGo (tools : List AgentTool) (getSteering : Option MsgOracle) (now : Nat → Int) :
    List ai.ToolCall → Nat → Nat →
    (List ai.ToolResultMessage × List AgentMessage × List AgentEvent × Nat × Nat)
  | [], sIdx, tick => ([], [], [], sIdx, tick)
  | tc :: rest, sIdx, tick =>
    let step := execCallStep tools tc (now tick)
    match getSteering with
    | some st =>
      if isInterrupt (st sIdx) then
        let sk := skipAll now rest (tick + 1)
        (step.1 :: sk.1, steerVal (st sIdx), step.2 ++ sk.2.1, sIdx + 1, sk.2.2)
      else
        let r := execCallsGo tools getSteering now rest (sIdx + 1) (tick + 1)
        (step.1 :: r.1, r.2.1, step.2 ++ r.2.2.1, r.2.2.2.1, r.2.2.2.2)
    | none =>
      let r := execCallsGo tools getSteering now rest sIdx (tick + 1)
      (step.1 :: r.1, r.2.1, step.2 ++ r.2.2.1, r.2.2.2.1, r.2.2.2.2)

/-- `executeToolCalls` (loop.go): run the assistant message's tool calls
sequentially, checking for steering after each. -/
def executeToolCalls (tools : List AgentTool) (assistantMsg : ai.AssistantMessage)
    (getSteering : Option MsgOracle) (now : Nat → Int) (sIdx tick : Nat) :
    (List ai.ToolResultMessage × List AgentMessage × List AgentEvent × Nat × Nat) :=
  execCallsGo tools getSteering now (extractToolCalls assistantMsg.content) sIdx tick

/-- The expected real results of a run of executed calls, for the skip
symmetry statement. -/
def realResultsFrom (tools : List AgentTool) (now : Nat → Int) :
    List ai.ToolCall → Nat → List ai.ToolResultMessage
  | [], _ => []
  | tc :: rest, tick => (execCallStep tools tc (now tick)).1 :: realResultsFrom tools now rest (tick + 1)

def skipResultsFrom (now : Nat → Int) : List ai.ToolCall → Nat → List ai.ToolResultMessage
  | [], _ => []
  | tc :: rest, tick => (skipToolCall tc (now tick)).1 :: skipResultsFrom now rest (tick + 1)

def realEventsFrom (tools : List AgentTool) (now : Nat → Int) :
    List ai.ToolCall → Nat → List AgentEvent
  | [], _ => []
  | tc :: rest, tick => (execCallStep tools tc (now tick)).2 ++ realEventsFrom tools now rest (tick + 1)

def skipEventsFrom (now : Nat → Int) : List ai.ToolCall → Nat → List AgentEvent
  | [], _ => []
  | tc :: rest, tick => (skipToolCall tc (now tick)).2 ++ skipEventsFrom now rest (tick + 1)

/-- The ordered tool-call ids of the `tool_execution_start` events. -/
def toolStartIds (evs : List AgentEvent) : List String :=
  evs.filterMap (fun e => if e.type = ToolExecutionEventStart then some e.toolCallID else none)

/-- The ordered tool-call ids of the `tool_execution_end` events. -/
def toolEndIds (evs : List AgentEvent) : List String :=
  evs.filterMap (fun e => if e.type = ToolExecutionEventEnd then some e.toolCallID else none)

/-- A concrete tool for exercising the batch-execution protocol. -/
def addTool : AgentTool :=
  { tool := { name := "add" },
    execute := fun _ _ => ([], .ok { content := [ai.NewTextContent "4"] }) }

/-- A concrete assistant message with a batch of three tool calls. -/
def threeCallMsg : ai.AssistantMessage :=
  { content := [ai.NewToolCallContent "t1" "add" (some []),
                ai.NewToolCallContent "t2" "add" (some []),
                ai.NewToolCallContent "t3" "add" (some [])],
    stopReason := ai.StopReasonToolUse, timestamp := 0 }

/-- A steering oracle that always has one queued user message. -/
def alwaysSteer : MsgOracle := fun _ =>
  .ok [NewAgentMessageFromMessage
    { user := some { content := [ai.NewTextContent "stop, do X"], timestamp := 0 } }]

/-! ## pkg/agent/loop.go: streaming one assistant response

A provider stream is its delivered event sequence plus the `End` result
used when the producer closes the stream without a terminal event
(`none` = the producer never ends, so `Result()` would block forever). -/

structure TurnStream where
  events : List ai.AssistantMessageEvent
  endResult : Option (Option ai.AssistantMessage) := none

/-- The `StreamFn` extension point. -/
abbrev StreamFn := ai.Model → ai.LLMContext → ai.SimpleStreamOptions → TurnStream

/-- `AgentLoopConfig` (pkg/agent/types.go) with its callbacks as oracles. -/
structure AgentLoopConfig where
  simpleStreamOptions : ai.SimpleStreamOptions := {}
  model : ai.Model
  convertToLLM : List AgentMessage → Except String (List ai.Message)
  transformContext : Option (List AgentMessage → Except String (List AgentMessage)) := none
  getApiKey : Option (String → Except String String) := none
  getSteeringMessages : Option MsgOracle := none
  getFollowUpMessages : Option MsgOracle := none

/-- `makeErrorAssistantMessage` (loop.go). -/
def makeErrorAssistantMessage (model : ai.Model) (errMsg : String) (ts : Int) :
    ai.AssistantMessage :=
  { content := [ai.NewTextContent ""], api := model.api, provider := model.provider,
    model := model.id, usage := {}, stopReason := ai.StopReasonError,
    errorMessage := errMsg, timestamp := ts }

/-- `cloneAssistant` (loop.go): a defensive deep copy, which on pure
values is the identity. -/
def cloneAssistant (m : Option ai.AssistantMessage) : Option ai.AssistantMessage := m

/-- The event kinds of the middle `case` of the stream-consumption switch. -/
def isDeltaEventType (t : String) : Bool :=
  t == ai.EventTextStart || t == ai.EventTextDelta || t == ai.EventTextEnd ||
  t == ai.EventThinkingStart || t == ai.EventThinkingDelta || t == ai.EventThinkingEnd ||
  t == ai.EventToolCallStart || t == ai.EventToolCallDelta || t == ai.EventToolCallEnd

/-- `agentCtx.Messages[len(agentCtx.Messages)-1] = m`. -/
def setLast (l : List AgentMessage) (m : AgentMessage) : List AgentMessage :=
  l.dropLast ++ [m]

/-- The result extractor of `NewAssistantMessageEventStream`
(so `response.Result()` at the first terminal event). -/
def extractTerminal (e : ai.AssistantMessageEvent) : Option ai.AssistantMessage :=
  if e.type = ai.EventDone then e.message
  else if e.type = ai.EventError then e.error
  else none

/-- Outcome of one `streamAssistantResponse` call. -/
inductive TurnOutcome where
  | hookError (e : String)
  | diverged
  | finished (finalMessage : Option ai.AssistantMessage) (ctxMessages : List AgentMessage)
      (events : List AgentEvent)

/-- Record an event pushed before the rest of the stream was consumed. -/
def prependEvent (ev : AgentEvent) : TurnOutcome → TurnOutcome
  | .finished f c es => .finished f c (ev :: es)
  | .diverged => .diverged
  | .hookError e => .hookError e

/-- The `for event := range response.Events()` loop of
`streamAssistantResponse`: maintain the in-flight assistant message,
mirror it into the context, and push `message_start`/`message_update`/
`message_end` events; return at the first terminal event.  The channel
closes at the terminal event, so later list entries are never delivered. -/
def consumeStream (endResult : Option (Option ai.AssistantMessage)) :
    List ai.AssistantMessageEvent → Option ai.AssistantMessage → Bool →
    List AgentMessage → TurnOutcome
  | [], _, _, ctx =>
    match endResult with
    | some r => .finished r ctx []
    | none => .diverged
  | e :: rest, pmsg, addedP, ctx =>
    if e.type = ai.EventStart then
      let newP := e.partialMsg
      let ctx' := ctx ++ [NewAgentMessageFromMessage { assistant := newP }]
      let am := NewAgentMessageFromMessage { assistant := cloneAssistant newP }
      prependEvent (msgStartEvent am) (consumeStream endResult rest newP true ctx')
    else if isDeltaEventType e.type then
      match pmsg with
      | some _ =>
        let newP := e.partialMsg
        let ctx' := if addedP then setLast ctx (NewAgentMessageFromMessage { assistant := newP })
                    else ctx
        let am := NewAgentMessageFromMessage { assistant := cloneAssistant newP }
        let ev : AgentEvent :=
          { type := MessageEventUpdate, assistantMessageEvent := some e, message := some am }
        prependEvent ev (consumeStream endResult rest newP addedP ctx')
      | none => consumeStream endResult rest pmsg addedP ctx
    else if e.type = ai.EventDone ∨ e.type = ai.EventError then
      let finalMessage := extractTerminal e
      let ctx' :=
        if addedP then setLast ctx (NewAgentMessageFromMessage { assistant := finalMessage })
        else ctx ++ [NewAgentMessageFromMessage { assistant := finalMessage }]
      let startEvs :=
        if addedP then []
        else [msgStartEvent (NewAgentMessageFromMessage { assistant := cloneAssistant finalMessage })]
      let fam := NewAgentMessageFromMessage { assistant := finalMessage }
      .finished finalMessage ctx' (startEvs ++ [msgEndEvent fam])
    else consumeStream endResult rest pmsg addedP ctx

/-- `streamAssistantResponse` (loop.go): transform the context, convert to
LLM messages, build the LLM context and options (resolving a dynamic API
key), invoke the stream function, and consume its events. -/
def streamAssistantResponse (config : AgentLoopConfig) (streamFn : Option StreamFn)
    (sysPrompt : String) (ctxMessages : List AgentMessage) (tools : List AgentTool) :
    TurnOutcome :=
  let messagesE := match config.transformContext with
    | some tf => tf ctxMessages
    | none => .ok ctxMessages
  match messagesE with
  | .error e => .hookError ("transformContext: " ++ e)
  | .ok messages =>
    match config.convertToLLM messages with
    | .error e => .hookError ("convertToLLM: " ++ e)
    | .ok llmMessages =>
      let llmCtx : ai.LLMContext :=
        { systemPrompt := sysPrompt, messages := llmMessages,
          tools := if tools.isEmpty then [] else tools.map (fun t => t.tool) }
      match streamFn with
      | none => .hookError "no stream function provided"
      | some sf =>
        let opts0 := config.simpleStreamOptions
        let opts := match config.getApiKey with
          | some g =>
            match g config.model.provider with
            | .ok key =>
              if key ≠ "" then
                { opts0 with streamOptions := { opts0.streamOptions with apiKey := key } }
              else opts0
            | .error _ => opts0
          | none => opts0
        let ts := sf config.model llmCtx opts
        consumeStream ts.endResult ts.events none false ctxMessages

/-! ## pkg/agent/loop.go: the loop -/

/-- The mutable locals of `runLoop`, plus the oracle cursors. -/
structure RunState where
  ctxMessages : List AgentMessage
  newMessages : List AgentMessage
  events : List AgentEvent
  pending : List AgentMessage
  firstTurn : Bool
  hasMoreToolCalls : Bool
  steerIdx : Nat
  followIdx : Nat
  tick : Nat

/-- Outcome of one iteration of the inner turn loop. -/
inductive StepOut where
  | ended (events : List AgentEvent) (result : List AgentMessage)
  | next (st : RunState)
  | stuck

/-- The `message_start`/`message_end` pairs for drained pending messages. -/
def pendingEvents (msgs : List AgentMessage) : List AgentEvent :=
  (msgs.map (fun m => [msgStartEvent m, msgEndEvent m])).flatten

/-- The head of an inner-loop iteration (loop.go lines 108-124): emit
`turn_start` on non-first turns, then drain the pending messages into the
context and the new-messages log, emitting their message pairs. -/
def turnPrep (st : RunState) : RunState :=
  let st1 :=
    if !st.firstTurn then { st with events := st.events ++ [turnStartEvent] }
    else { st with firstTurn := false }
  { st1 with
    events := st1.events ++ pendingEvents st1.pending,
    ctxMessages := st1.ctxMessages ++ st1.pending,
    newMessages := st1.newMessages ++ st1.pending,
    pending := [] }

/-- One iteration of the inner loop of `runLoop` (loop.go lines 107-182):
emit `turn_start` on non-first turns, drain pending messages, stream the
assistant response, classify the stop, run the tool calls, emit
`turn_end`, and re-poll the steering queue. -/
def runTurn (config : AgentLoopConfig) (streamFn : Option StreamFn) (sysPrompt : String)
    (tools : List AgentTool) (now : Nat → Int) (st0 : RunState) : StepOut :=
  let st := turnPrep st0
  match streamAssistantResponse config streamFn sysPrompt st.ctxMessages tools with
  | .hookError e =>
    let errMsg := makeErrorAssistantMessage config.model e (now st.tick)
    let am := NewAgentMessageFromMessage { assistant := some errMsg }
    let newMessages := st.newMessages ++ [am]
    .ended (st.events ++ [turnEndEvent am [], agentEndEvent newMessages]) newMessages
  | .diverged => .stuck
  | .finished finalMessage ctx' evs =>
    match finalMessage with
    | none => .stuck   -- `message.StopReason` dereferences a nil pointer
    | some message =>
      let st := { st with ctxMessages := ctx', events := st.events ++ evs }
      let am := NewAgentMessageFromMessage { assistant := some message }
      let newMessages := st.newMessages ++ [am]
      if message.stopReason = ai.StopReasonError ∨ message.stopReason = ai.StopReasonAborted then
        .ended (st.events ++ [turnEndEvent am [], agentEndEvent newMessages]) newMessages
      else
        let toolCalls := extractToolCalls message.content
        if !toolCalls.isEmpty then
          let ex := executeToolCalls tools message config.getSteeringMessages now st.steerIdx st.tick
          let toolResults := ex.1
          let steeringAfter := ex.2.1
          let tevs := ex.2.2.1
          let sIdx' := ex.2.2.2.1
          let tick' := ex.2.2.2.2
          let trMsgs := toolResults.map (fun r => NewAgentMessageFromMessage { toolResult := some r })
          let ctx2 := st.ctxMessages ++ trMsgs
          let newMessages2 := newMessages ++ trMsgs
          let events2 := st.events ++ tevs ++ [turnEndEvent am toolResults]
          if !steeringAfter.isEmpty then
            .next { ctxMessages := ctx2, newMessages := newMessages2, events := events2,
                    pending := steeringAfter, firstTurn := false, hasMoreToolCalls := true,
                    steerIdx := sIdx', followIdx := st.followIdx, tick := tick' }
          else
            match config.getSteeringMessages with
            | some g =>
              .next { ctxMessages := ctx2, newMessages := newMessages2, events := events2,
                      pending := steerVal (g sIdx'), firstTurn := false,
                      hasMoreToolCalls := true, steerIdx := sIdx' + 1,
                      followIdx := st.followIdx, tick := tick' }
            | none =>
              .next { ctxMessages := ctx2, newMessages := newMessages2, events := events2,
                      pending := [], firstTurn := false, hasMoreToolCalls := true,
                      steerIdx := sIdx', followIdx := st.followIdx, tick := tick' }
        else
          let events2 := st.events ++ [turnEndEvent am []]
          match config.getSteeringMessages with
          | some g =>
            .next { ctxMessages := st.ctxMessages, newMessages := newMessages, events := events2,
                    pending := steerVal (g st.steerIdx), firstTurn := false,
                    hasMoreToolCalls := false, steerIdx := st.steerIdx + 1,
                    followIdx := st.followIdx, tick := st.tick }
          | none =>
            .next { ctxMessages := st.ctxMessages, newMessages := newMessages, events := events2,
                    pending := [], firstTurn := false, hasMoreToolCalls := false,
                    steerIdx := st.steerIdx, followIdx := st.followIdx, tick := st.tick }

/-- The nested loops of `runLoop` (fuel-indexed: `none` models a run that
has not terminated within `fuel` turns, or that blocked/panicked).  The
inner loop runs turns while there were tool calls or pending messages;
when it falls out, a non-empty follow-up poll restarts the outer loop,
otherwise the run ends with `agent_end`. -/
def runLoopGo (config : AgentLoopConfig) (streamFn : Option StreamFn) (sysPrompt : String)
    (tools : List AgentTool) (now : Nat → Int) :
    Nat → RunState → Option (List AgentEvent × List AgentMessage)
  | 0, _ => none
  | fuel+1, st =>
    if st.hasMoreToolCalls || !st.pending.isEmpty then
      match runTurn config streamFn sysPrompt tools now st with
      | .ended evs result => some (evs, result)
      | .stuck => none
      | .next st' => runLoopGo config streamFn sysPrompt tools now fuel st'
    else
      match config.getFollowUpMessages with
      | some g =>
        match g st.followIdx with
        | .ok followUp =>
          if !followUp.isEmpty then
            runLoopGo config streamFn sysPrompt tools now fuel
              { st with pending := followUp, hasMoreToolCalls := true,
                        followIdx := st.followIdx + 1 }
          else some (st.events ++ [agentEndEvent st.newMessages], st.newMessages)
        | .error _ => some (st.events ++ [agentEndEvent st.newMessages], st.newMessages)
      | none => some (st.events ++ [agentEndEvent st.newMessages], st.newMessages)

/-- `runLoop` (loop.go): poll steering once at start, then run the nested
loops. -/
def runLoop (config : AgentLoopConfig) (streamFn : Option StreamFn) (sysPrompt : String)
    (tools : List AgentTool) (now : Nat → Int) (fuel : Nat)
    (ctxMessages newMessages : List AgentMessage) (events0 : List AgentEvent) :
    Option (List AgentEvent × List AgentMessage) :=
  let (pending0, sIdx0) := match config.getSteeringMessages with
    | some g => (steerVal (g 0), 1)
    | none => ([], 0)
  runLoopGo config streamFn sysPrompt tools now fuel
    { ctxMessages := ctxMessages, newMessages := newMessages, events := events0,
      pending := pending0, firstTurn := true, hasMoreToolCalls := true,
      steerIdx := sIdx0, followIdx := 0, tick := 0 }

/-- `AgentLoop` (loop.go): append the prompts to the context, start the
event bracket, emit the prompts' message pairs, and run the loop. -/
def AgentLoop (prompts : List AgentMessage) (agentCtx : AgentContext)
    (config : AgentLoopConfig) (streamFn : Option StreamFn) (now : Nat → Int) (fuel : Nat) :
    Option (List AgentEvent × List AgentMessage) :=
  runLoop config streamFn agentCtx.systemPrompt agentCtx.tools now fuel
    (agentCtx.messages ++ prompts) prompts
    ([agentStartEvent, turnStartEvent] ++ pendingEvents prompts)

/-- `AgentLoopContinue` (loop.go): fail when the context is empty or its
last message is an assistant message; otherwise run the loop on the
context as-is. -/
def AgentLoopContinue (agentCtx : AgentContext) (config : AgentLoopConfig)
    (streamFn : Option StreamFn) (now : Nat → Int) (fuel : Nat) :
    Except String (Option (List AgentEvent × List AgentMessage)) :=
  match agentCtx.messages.getLast? with
  | none => .error "cannot continue: no messages in context"
  | some last =>
    if last.Role = ai.RoleAssistant then .error "cannot continue from message role: assistant"
    else
      .ok (runLoop config streamFn agentCtx.systemPrompt agentCtx.tools now fuel
        agentCtx.messages [] [agentStartEvent, turnStartEvent])

/-- The messages finalised by `message_end` events, in event order. -/
def msgEnds (events : List AgentEvent) : List AgentMessage :=
  events.filterMap (fun e => if e.type = MessageEventEnd then e.message else none)

/-- A provider stream that delivers a terminal `done`/`error` event
(the §4.3 contract: `done` or `error` appears exactly once per stream). -/
def hasTerminal (evts : List ai.AssistantMessageEvent) : Bool :=
  evts.any (fun e => e.type == ai.EventDone || e.type == ai.EventError)

/-- The message-ledger property of a finished run of the loop built from
`config`, `sf`, `sysPrompt`, `tools` and the clock `now`: `agent_end` is
the last event and carries the run's result; the result either equals the
`message_end` concatenation exactly, or exceeds it by exactly one
trailing synthetic hook-error message — and then the run's hooks really
do error: some context makes `streamAssistantResponse` return that very
hook error, and the trailing message is the synthetic error assistant
message built from it (so it was never finalised by a `message_end`).
The two cases exclude each other (the lists differ in length), and when
the hooks cannot error the last conjunct pins the ledger exact. -/
def LedgerOK (config : AgentLoopConfig) (sf : StreamFn) (sysPrompt : String)
    (tools : List AgentTool) (now : Nat → Int)
    (events : List AgentEvent) (result : List AgentMessage) : Prop :=
  events.getLast? = some (agentEndEvent result) ∧
  (result = msgEnds events ∨
    ∃ msgs e tick,
      streamAssistantResponse config (some sf) sysPrompt msgs tools = .hookError e ∧
      result = msgEnds events ++
        [NewAgentMessageFromMessage
          { assistant := some (makeErrorAssistantMessage config.model e (now tick)) }]) ∧
  ((∀ msgs e,
      ¬ streamAssistantResponse config (some sf) sysPrompt msgs tools = .hookError e) →
    result = msgEnds events)

/-- A concrete prompt message for exercising the loop. -/
def ledgerPrompt : AgentMessage :=
  NewAgentMessageFromMessage
    { user := some { content := [ai.NewTextContent "Hi"], timestamp := 0 } }

/-- A loop config whose LLM conversion hook always fails. -/
def badConvertConfig : AgentLoopConfig :=
  { model := { id := "m" }, convertToLLM := fun _ => .error "boom" }

/-- The synthetic error assistant message that a conversion-failure run
appends to its final message list. -/
def ledgerErrAm : AgentMessage :=
  NewAgentMessageFromMessage
    { assistant := some (makeErrorAssistantMessage { id := "m" } "convertToLLM: boom" 0) }

/-- A concrete assistant reply for the happy-path run. -/
def ledgerReply : ai.AssistantMessage :=
  { content := [ai.NewTextContent "Hello"], stopReason := ai.StopReasonStop, timestamp := 0 }

def ledgerReplyAm : AgentMessage :=
  NewAgentMessageFromMessage { assistant := some ledgerReply }

/-- A stream function emitting `start` then `done` with that reply. -/
def ledgerStreamFn : StreamFn := fun _ _ _ =>
  { events := [{ type := ai.EventStart, partialMsg := some ledgerReply },
               { type := ai.EventDone, message := some ledgerReply,
                 reason := ai.StopReasonStop }] }

/-- A loop config with the default conversion hook. -/
def okConfig : AgentLoopConfig :=
  { model := { id := "m" }, convertToLLM := DefaultConvertToLLM }

/-- The per-outcome ledger invariant of the turn loop: an ended turn
satisfies the ledger, a continuing turn preserves the
new-messages/`message_end` correspondence. -/
def stepOutOK (config : AgentLoopConfig) (sf : StreamFn) (sysPrompt : String)
    (tools : List AgentTool) (now : Nat → Int) (out : StepOut) : Prop :=
  match out with
  | .ended evs result => LedgerOK config sf sysPrompt tools now evs result
  | .next st' => st'.newMessages = msgEnds st'.events
  | .stuck => True

end agent

/-! # Theorems -/

namespace ai

/-! ## Trim lemmas and the `ParseStreamingJSON` claim -/

theorem toList_asString (l : List Char) : (List.asString l).toList = l := rfl

theorem asString_eq_empty {l : List Char} (h : List.asString l = "") : l = [] := by
  have : (List.asString l).toList = ("" : String).toList := by rw [h]
  simpa [toList_asString] using this

theorem dropWhile_idem (p : Char → Bool) (l : List Char) :
    (l.dropWhile p).dropWhile p = l.dropWhile p := by
  induction l with
  | nil => simp
  | cons c t ih =>
    by_cases h : p c
    · simpa [List.dropWhile_cons, h] using ih
    · simp [List.dropWhile_cons, h]

theorem dropLastWhileL_idem (p : Char → Bool) (l : List Char) :
    dropLastWhileL p (dropLastWhileL p l) = dropLastWhileL p l := by
  unfold dropLastWhileL
  rw [List.reverse_reverse, dropWhile_idem]

theorem dropWhile_fixed_of_dropLastWhileL (p : Char → Bool) (y : List Char)
    (h : y.dropWhile p = y) : (dropLastWhileL p y).dropWhile p = dropLastWhileL p y := by
  rcases hd : dropLastWhileL p y with _ | ⟨c, t⟩
  · simp
  · -- `dropLastWhileL p y` is a prefix of `y`, so its head is `y`'s head,
    -- which does not satisfy `p` since `y` is a fixed point of `dropWhile p`.
    have hsplit : dropLastWhileL p y ++ (y.reverse.takeWhile p).reverse = y := by
      have hw := List.takeWhile_append_dropWhile (p := p) (l := y.reverse)
      calc dropLastWhileL p y ++ (y.reverse.takeWhile p).reverse
          = (y.reverse.takeWhile p ++ y.reverse.dropWhile p).reverse := by
            rw [List.reverse_append]; rfl
        _ = y.reverse.reverse := by rw [hw]
        _ = y := by rw [List.reverse_reverse]
    obtain ⟨tl, hy⟩ : ∃ tl, y = c :: (t ++ tl) := by
      refine ⟨(y.reverse.takeWhile p).reverse, ?_⟩
      conv_lhs => rw [← hsplit]
      rw [hd]
      simp
    cases hpc : p c with
    | false => simp [List.dropWhile_cons, hpc]
    | true =>
      exfalso
      have h4 : List.dropWhile p y = List.dropWhile p (t ++ tl) := by
        conv_lhs => rw [hy]
        simp [List.dropWhile_cons, hpc]
      have hle : (List.dropWhile p (t ++ tl)).length ≤ (t ++ tl).length :=
        (List.IsSuffix.sublist (List.dropWhile_suffix p)).length_le
      have hle2 : y.length ≤ (t ++ tl).length := by
        rw [← h, h4]; exact hle
      have hlt : (t ++ tl).length < y.length := by
        conv_rhs => rw [hy]
        simp [Nat.lt_succ_self]
      exact Nat.lt_irrefl _ (Nat.lt_of_le_of_lt hle2 hlt)

theorem trimSpaceL_idem (l : List Char) : trimSpaceL (trimSpaceL l) = trimSpaceL l := by
  unfold trimSpaceL
  have h1 : (l.dropWhile isGoSpace).dropWhile isGoSpace = l.dropWhile isGoSpace :=
    dropWhile_idem _ _
  have h2 := dropWhile_fixed_of_dropLastWhileL isGoSpace (l.dropWhile isGoSpace) h1
  rw [h2, dropLastWhileL_idem]

theorem jsonUnmarshalObject_trimSpace (s : String) :
    jsonUnmarshalObject (trimSpace s) = jsonUnmarshalObject s := by
  unfold jsonUnmarshalObject trimSpace
  rw [toList_asString, trimSpaceL_idem]

/-- C3: `ParseStreamingJSON` is total — it returns a mapping for every
input, the empty mapping when both the strict parse and the repair fail —
and on any input that is already a valid JSON object it returns exactly
the strict JSON parse of that input. -/
theorem parseStreamingJSON_total_and_strict (s : String) :
    (∀ m, jsonUnmarshalObject s = some m → ParseStreamingJSON s = m) ∧
    (jsonUnmarshalObject (trimSpace s) = none →
      tryRepairAndParse (trimSpace s) = none → ParseStreamingJSON s = []) := by
  constructor
  · intro m hm
    unfold ParseStreamingJSON
    by_cases hempty : trimSpace s = ""
    · exfalso
      have hnil : trimSpaceL s.toList = [] := asString_eq_empty hempty
      rw [jsonUnmarshalObject] at hm
      rw [hnil] at hm
      simp [parseJValue] at hm
    · rw [if_neg hempty, jsonUnmarshalObject_trimSpace, hm]
  · intro h1 h2
    unfold ParseStreamingJSON
    by_cases hempty : trimSpace s = ""
    · rw [if_pos hempty]
    · rw [if_neg hempty, h1, h2]

/-- Witness for C3 at the concrete valid JSON object `{"a":1}`. -/
theorem parseStreamingJSON_total_and_strict_witness :
    jsonUnmarshalObject "\x7b\"a\":1\x7d" = some [("a", JsonValue.num "1")] ∧
      ParseStreamingJSON "\x7b\"a\":1\x7d" = [("a", JsonValue.num "1")] :=
  ⟨rfl, (parseStreamingJSON_total_and_strict _).1 _ rfl⟩

/-! ## The overflow-detection claim -/

/-- No overflow pattern matches the empty string. -/
theorem overflow_patterns_empty :
    ¬ ∃ p ∈ overflowPatterns, matchPattern p "" = true := by
  decide

/-- The bodyless-4xx pattern does not match the empty string. -/
theorem noBody_empty : ¬ noBodyMatch "" = true := by
  decide

/-- C6: `IsContextOverflow(msg, contextWindow)` is true exactly when
either the message stopped with an error whose text matches one of the
recognised overflow patterns (case-insensitively) or the bodyless-4xx
pattern, or the context window is positive, the message stopped normally,
and `usage.input + usage.cache_read` exceeds the window. -/
theorem isContextOverflow_iff (msg : AssistantMessage) (contextWindow : Int) :
    IsContextOverflow msg contextWindow = true ↔
      ((msg.stopReason = StopReasonError ∧
          ((∃ p ∈ overflowPatterns, matchPattern p msg.errorMessage = true) ∨
            noBodyMatch msg.errorMessage = true)) ∨
        (contextWindow > 0 ∧ msg.stopReason = StopReasonStop ∧
          msg.usage.input + msg.usage.cacheRead > contextWindow)) := by
  unfold IsContextOverflow
  by_cases hempty : msg.errorMessage = ""
  · rw [hempty]
    have hA := overflow_patterns_empty
    have hB := noBody_empty
    simp only [Bool.or_eq_true, Bool.and_eq_true, decide_eq_true_eq, List.any_eq_true,
      Bool.not_eq_true', beq_eq_false_iff_ne, ne_eq]
    constructor
    · intro h
      rcases h with h1 | hs
      · exfalso
        simp at h1
      · exact Or.inr ⟨hs.1.1, hs.1.2, hs.2⟩
    · intro h
      rcases h with ⟨_, hmatch⟩ | hs
      · exfalso
        rcases hmatch with hex | hnb
        · exact hA hex
        · exact hB hnb
      · exact Or.inr ⟨⟨hs.1, hs.2.1⟩, hs.2.2⟩
  · simp only [Bool.or_eq_true, Bool.and_eq_true, decide_eq_true_eq, List.any_eq_true,
      Bool.not_eq_true', beq_eq_false_iff_ne, ne_eq]
    constructor
    · intro h
      rcases h with ⟨⟨h1, _⟩, hm⟩ | hs
      · exact Or.inl ⟨h1, hm⟩
      · exact Or.inr ⟨hs.1.1, hs.1.2, hs.2⟩
    · intro h
      rcases h with ⟨h1, hm⟩ | hs
      · exact Or.inl ⟨⟨h1, hempty⟩, hm⟩
      · exact Or.inr ⟨⟨hs.1, hs.2.1⟩, hs.2.2⟩

/-! ## The event-stream one-shot claim -/

/-- C10 counterexample: after a terminal `Push` records result `1` and the
consumer takes it with `Result()`, a later `End 2` records a fresh result
`2`, and `Result()` then returns `2`, not the first recorded result. -/
theorem eventStream_end_after_result_changes_result :
    pushOp natStreamCore 1 (NewEventStreamState Nat Nat) =
        some { buf := [1], closed := true, resultBuf := some 1 } ∧
      resultOp { buf := [1], closed := true, resultBuf := some (1 : Nat) } =
        some (1, { buf := [1], closed := true, resultBuf := none }) ∧
      endOp 2 { buf := [1], closed := true, resultBuf := (none : Option Nat) } =
        { buf := [1], closed := true, resultBuf := some 2 } ∧
      resultOp { buf := [1], closed := true, resultBuf := some (2 : Nat) } =
        some (2, { buf := [1], closed := true, resultBuf := none }) ∧
      (2 : Nat) ≠ 1 := by
  refine ⟨rfl, rfl, rfl, rfl, by decide⟩

/-- C10 (amended): the first terminal `Push` on an open stream with an
empty result slot records the extracted result and closes the channel;
`End` on an open stream records its result and closes; while the recorded
result has not been consumed, any later `End(r')` changes nothing (in
particular `End` is then idempotent and the channel stays closed exactly
once); and `Result()` returns the recorded result. -/
theorem eventStream_result_one_shot {T R : Type} (c : EventStreamCore T R)
    (s : EventStreamState T R) :
    (∀ e, s.closed = false → s.resultBuf = none → c.isComplete e = true →
      pushOp c e s =
        some { buf := s.buf ++ [e], closed := true,
               resultBuf := some (c.extractResult e) }) ∧
    (∀ r, s.closed = false → s.resultBuf = none →
      endOp r s = { s with resultBuf := some r, closed := true }) ∧
    (∀ r r0, s.resultBuf = some r0 → endOp r s = { s with closed := true }) ∧
    (∀ r r0, s.resultBuf = some r0 → s.closed = true → endOp r s = s) ∧
    (∀ r0, s.resultBuf = some r0 →
      resultOp s = some (r0, { s with resultBuf := none })) := by
  refine ⟨?_, ?_, ?_, ?_, ?_⟩
  · intro e hclosed hbuf hterm
    unfold pushOp
    rw [hterm, hbuf, hclosed]
    rfl
  · intro r hclosed hbuf
    unfold endOp
    rw [hbuf]
  · intro r r0 hbuf
    unfold endOp
    rw [hbuf]
  · intro r r0 hbuf hclosed
    have h3 : endOp r s = { s with closed := true } := by
      unfold endOp
      rw [hbuf]
    rw [h3, ← hclosed]
  · intro r0 hbuf
    unfold resultOp
    rw [hbuf]

/-- Witness for the amended C10 statement at concrete states. -/
theorem eventStream_result_one_shot_witness :
    pushOp natStreamCore 7 (NewEventStreamState Nat Nat) =
        some { buf := [7], closed := true, resultBuf := some 7 } ∧
      endOp 9 { buf := [7], closed := true, resultBuf := some (7 : Nat) } =
        { buf := [7], closed := true, resultBuf := some 7 } ∧
      resultOp { buf := [7], closed := true, resultBuf := some (7 : Nat) } =
        some (7, { buf := [7], closed := true, resultBuf := none }) := by
  refine ⟨?_, ?_, ?_⟩
  · exact (eventStream_result_one_shot natStreamCore (NewEventStreamState Nat Nat)).1 7 rfl rfl rfl
  · exact (eventStream_result_one_shot natStreamCore
      { buf := [7], closed := true, resultBuf := some (7 : Nat) }).2.2.2.1 9 7 rfl rfl
  · exact (eventStream_result_one_shot natStreamCore
      { buf := [7], closed := true, resultBuf := some (7 : Nat) }).2.2.2.2 7 rfl

end ai

namespace agent

/-! ## The DefaultConvertToLLM claim -/

/-- C4 counterexample: `DefaultConvertToLLM` filters by role only, so an
`AgentMessage` that wraps a user message *and* carries `custom != nil` is
passed through to the LLM, contradicting the claim that every message
with a non-null custom payload is excluded. -/
theorem defaultConvertToLLM_keeps_custom_with_role :
    DefaultConvertToLLM [customTaggedUser] = .ok [customTaggedUser.message] ∧
      customTaggedUser.custom ≠ none := by
  exact ⟨rfl, by decide⟩

/-- `Message.Role()` is one of the three roles or empty. -/
theorem message_role_cases (m : ai.Message) :
    m.Role = "" ∨ m.Role = ai.RoleUser ∨ m.Role = ai.RoleAssistant ∨
      m.Role = ai.RoleToolResult := by
  unfold ai.Message.Role
  cases m.user <;> cases m.assistant <;> cases m.toolResult <;> simp [ai.RoleUser,
    ai.RoleAssistant, ai.RoleToolResult]

/-- C4 (amended): for message lists respecting the documented union shape
of `AgentMessage` (a message with `custom != nil` embeds no standard
message, hence has empty role), `DefaultConvertToLLM` returns exactly the
embedded messages of the entries that are LLM messages — in particular it
excludes every entry with `custom != nil`. -/
theorem defaultConvertToLLM_filters_custom (messages : List AgentMessage)
    (hunion : ∀ m ∈ messages, m.custom ≠ none → m.message.Role = "") :
    DefaultConvertToLLM messages =
      .ok ((messages.filter (fun m => m.IsLLMMessage)).map (fun m => m.message)) := by
  unfold DefaultConvertToLLM
  congr 1
  induction messages with
  | nil => rfl
  | cons m rest ih =>
    have hrest : ∀ m' ∈ rest, m'.custom ≠ none → m'.message.Role = "" := by
      intro m' hm' hc
      exact hunion m' (List.mem_cons_of_mem _ hm') hc
    have htail := ih hrest
    have hRoleEq : m.Role = m.message.Role := rfl
    simp only [List.filterMap_cons, List.filter_cons]
    rcases hc : m.custom with _ | c
    · -- custom = nil: kept by the role filter iff the role is non-empty.
      rcases message_role_cases m.message with h0 | h1 | h1 | h1
      · have hcond : ¬(m.Role = ai.RoleUser ∨ m.Role = ai.RoleAssistant ∨
            m.Role = ai.RoleToolResult) := by
          rw [hRoleEq, h0]; decide
        rw [if_neg hcond]
        have hllm : m.IsLLMMessage = false := by
          unfold AgentMessage.IsLLMMessage
          rw [hRoleEq, h0]
          simp
        rw [hllm]
        simpa using htail
      all_goals {
        first
        | (have hcond : (m.Role = ai.RoleUser ∨ m.Role = ai.RoleAssistant ∨
              m.Role = ai.RoleToolResult) := by rw [hRoleEq, h1]; decide
           rw [if_pos hcond]
           have hllm : m.IsLLMMessage = true := by
             unfold AgentMessage.IsLLMMessage
             rw [hRoleEq, h1, hc]
             decide
           rw [hllm]
           simpa using htail) }
    · -- custom ≠ nil: the union invariant forces an empty role, so the
      -- entry is dropped by both sides.
      have hrole : m.message.Role = "" :=
        hunion m (List.mem_cons_self _ _) (by rw [hc]; exact Option.some_ne_none c)
      have hcond : ¬(m.Role = ai.RoleUser ∨ m.Role = ai.RoleAssistant ∨
          m.Role = ai.RoleToolResult) := by
        rw [hRoleEq, hrole]; decide
      rw [if_neg hcond]
      have hllm : m.IsLLMMessage = false := by
        unfold AgentMessage.IsLLMMessage
        rw [hRoleEq, hrole]
        simp
      rw [hllm]
      simpa using htail

/-- Witness for the amended C4: a union-respecting list with one plain
user message and one purely-custom message; only the former is sent. -/
theorem defaultConvertToLLM_filters_custom_witness :
    DefaultConvertToLLM
        [{ message := { user := some { content := [ai.NewTextContent "hi"], timestamp := 0 } } },
         { message := {}, custom := some ⟨1⟩ }] =
      .ok [{ user := some { content := [ai.NewTextContent "hi"], timestamp := 0 } }] := by
  have h := defaultConvertToLLM_filters_custom
    [{ message := { user := some { content := [ai.NewTextContent "hi"], timestamp := 0 } } },
     { message := {}, custom := some ⟨1⟩ }]
    (by
      intro m hm hc
      rcases List.mem_cons.mp hm with hm | hm
      · rw [hm] at hc
        exact absurd rfl hc
      · rcases List.mem_cons.mp hm with hm | hm
        · rw [hm]
          rfl
        · exact absurd hm (List.not_mem_nil m))
  exact h

/-! ## The Abort frame claim -/

/-- C9: `Abort()` cancels the current run's handle and changes nothing
else in the facade — in particular the steering queue and the follow-up
queue are exactly the same before and after. -/
theorem agent_abort_frame (a : Agent) :
    (a.Abort).steeringQueue = a.steeringQueue ∧
      (a.Abort).followUpQueue = a.followUpQueue ∧
      (a.Abort).state = a.state ∧
      (a.Abort).listeners = a.listeners ∧
      (a.Abort).nextListenerID = a.nextListenerID ∧
      (a.Abort).abortHandle = a.abortHandle ∧
      (a.Abort).steeringMode = a.steeringMode ∧
      (a.Abort).followUpMode = a.followUpMode ∧
      (a.Abort).sessionID = a.sessionID ∧
      (a.Abort).running = a.running := by
  unfold Agent.Abort
  by_cases h : a.abortHandle
  · rw [if_pos h]
    exact ⟨rfl, rfl, rfl, rfl, rfl, rfl, rfl, rfl, rfl, rfl⟩
  · rw [if_neg h]
    exact ⟨rfl, rfl, rfl, rfl, rfl, rfl, rfl, rfl, rfl, rfl⟩

/-! ## The listener-dispatch claim -/

/-- C7 counterexample: registering listeners `10` then `20` yields the
registry `[(0,10),(1,20)]`, and `[1,0]` is an admissible map iteration
order under which the snapshot — hence the invocation order — is
`[20,10]`, not the registration order `[10,20]`. -/
theorem listener_dispatch_order_not_registration :
    (registerListener (registerListener ([] : List (Nat × Nat)) 0 10).1
        (registerListener ([] : List (Nat × Nat)) 0 10).2 20).1 = [(0, 10), (1, 20)] ∧
      IsMapIterationOrder [(0, 10), (1, 20)] [1, 0] ∧
      snapshotListeners [(0, 10), (1, 20)] [1, 0] = [20, 10] ∧
      ([20, 10] : List Nat) ≠ [(0, 10), (1, 20)].map Prod.snd := by
  refine ⟨rfl, ?_, rfl, by decide⟩
  unfold IsMapIterationOrder
  decide

theorem lookupKey_cons {α : Type} (k : Nat) (v : α) (rest : List (Nat × α)) (k' : Nat) :
    lookupKey ((k, v) :: rest) k' = if k = k' then some v else lookupKey rest k' := rfl

theorem lookupKey_of_nodup {α : Type} (l : List (Nat × α))
    (hnodup : (l.map Prod.fst).Nodup) :
    (l.map Prod.fst).filterMap (fun k => lookupKey l k) = l.map Prod.snd := by
  induction l with
  | nil => rfl
  | cons p rest ih =>
    obtain ⟨k, v⟩ := p
    have hk : k ∉ rest.map Prod.fst := by
      have := hnodup
      simp only [List.map_cons, List.nodup_cons] at this
      exact this.1
    have hrest : (rest.map Prod.fst).Nodup := by
      have := hnodup
      simp only [List.map_cons, List.nodup_cons] at this
      exact this.2
    simp only [List.map_cons, List.filterMap_cons]
    have hhead : lookupKey ((k, v) :: rest) k = some v := by
      rw [lookupKey_cons, if_pos rfl]
    rw [hhead]
    have hcongr : (rest.map Prod.fst).filterMap (fun k' => lookupKey ((k, v) :: rest) k') =
        (rest.map Prod.fst).filterMap (fun k' => lookupKey rest k') := by
      apply List.filterMap_congr
      intro k' hk'
      have hne : ¬ k = k' := by
        intro he
        rw [he] at hk
        exact hk hk'
      rw [lookupKey_cons, if_neg hne]
    rw [hcongr, ih hrest]

/-- C7 (amended): each dispatch invokes the snapshot taken from the
listener registry — a permutation of the registered listeners (each
invoked exactly once) — but in an arbitrary admissible map iteration
order, which need not be the registration order. -/
theorem listener_dispatch_perm {α : Type} (l : List (Nat × α)) (order : List Nat)
    (hnodup : (l.map Prod.fst).Nodup) (horder : IsMapIterationOrder l order) :
    (snapshotListeners l order).Perm (l.map Prod.snd) := by
  unfold snapshotListeners
  have h1 : (order.filterMap (fun k => lookupKey l k)).Perm
      ((l.map Prod.fst).filterMap (fun k => lookupKey l k)) :=
    List.Perm.filterMap _ horder
  rw [lookupKey_of_nodup l hnodup] at h1
  exact h1

/-- Witness for the amended C7 at a concrete two-listener registry. -/
theorem listener_dispatch_perm_witness :
    (snapshotListeners [(0, 10), (1, 20)] [1, 0]).Perm ([(0, 10), (1, 20)].map Prod.snd) :=
  listener_dispatch_perm [(0, 10), (1, 20)] [1, 0] (by decide)
    (by unfold IsMapIterationOrder; decide)

/-! ## The tool-batch skip-symmetry claim -/

theorem drop_append_of_length {α : Type} (A B : List α) (n : Nat) (h : A.length = n) :
    (A ++ B).drop n = B := by
  rw [← h, List.drop_left]

theorem skipAll_spec (now : Nat → Int) (cs : List ai.ToolCall) (tick : Nat) :
    skipAll now cs tick =
      (skipResultsFrom now cs tick, skipEventsFrom now cs tick, tick + cs.length) := by
  induction cs generalizing tick with
  | nil => simp [skipAll, skipResultsFrom, skipEventsFrom]
  | cons tc rest ih =>
    have harith : tick + 1 + rest.length = tick + (rest.length + 1) := by omega
    simp only [skipAll, skipResultsFrom, skipEventsFrom, ih (tick + 1), List.length_cons, harith]

theorem execCallsGo_first_interrupt (tools : List AgentTool) (st : MsgOracle)
    (now : Nat → Int) :
    ∀ (k : Nat) (cs : List ai.ToolCall) (sIdx tick : Nat),
      k < cs.length →
      (∀ j, j < k → isInterrupt (st (sIdx + j)) = false) →
      isInterrupt (st (sIdx + k)) = true →
      execCallsGo tools (some st) now cs sIdx tick =
        (realResultsFrom tools now (cs.take (k + 1)) tick ++
            skipResultsFrom now (cs.drop (k + 1)) (tick + (k + 1)),
          steerVal (st (sIdx + k)),
          realEventsFrom tools now (cs.take (k + 1)) tick ++
            skipEventsFrom now (cs.drop (k + 1)) (tick + (k + 1)),
          sIdx + (k + 1), tick + cs.length) := by
  intro k
  induction k with
  | zero =>
    intro cs sIdx tick hlen _ hat
    match cs with
    | [] => exact absurd hlen (by simp)
    | tc :: rest =>
      rw [Nat.add_zero] at hat
      have harith : tick + 1 + rest.length = tick + (rest.length + 1) := by omega
      simp only [execCallsGo, hat, if_true, skipAll_spec, List.take_succ_cons, List.take_zero,
        List.drop_succ_cons, List.drop_zero, realResultsFrom, realEventsFrom, List.length_cons,
        Nat.add_zero, harith, Nat.zero_add, List.singleton_append, List.append_nil,
        List.nil_append, List.cons_append]
  | succ k ih =>
    intro cs sIdx tick hlen hbefore hat
    match cs with
    | [] => exact absurd hlen (by simp)
    | tc :: rest =>
      have h0 : isInterrupt (st (sIdx + 0)) = false := hbefore 0 (Nat.succ_pos k)
      rw [Nat.add_zero] at h0
      have hbefore' : ∀ j, j < k → isInterrupt (st (sIdx + 1 + j)) = false := by
        intro j hj
        have := hbefore (j + 1) (by omega)
        have harith : sIdx + (j + 1) = sIdx + 1 + j := by omega
        rw [harith] at this
        exact this
      have hat' : isInterrupt (st (sIdx + 1 + k)) = true := by
        have harith : sIdx + (k + 1) = sIdx + 1 + k := by omega
        rw [harith] at hat
        exact hat
      have hlen' : k < rest.length := by
        simp only [List.length_cons] at hlen
        omega
      have hrec := ih rest (sIdx + 1) (tick + 1) hlen' hbefore' hat'
      have harith2 : sIdx + 1 + (k + 1) = sIdx + (k + 1 + 1) := by omega
      have harith3 : tick + 1 + (k + 1) = tick + (k + 1 + 1) := by omega
      have harith4 : tick + 1 + rest.length = tick + (rest.length + 1) := by omega
      have harith5 : sIdx + 1 + k = sIdx + (k + 1) := by omega
      simp only [execCallsGo, h0, Bool.false_eq_true, if_false, hrec, List.take_succ_cons,
        List.drop_succ_cons, realResultsFrom, realEventsFrom, List.length_cons,
        harith2, harith3, harith4, harith5, List.append_assoc, List.singleton_append,
        List.append_nil, List.nil_append, List.cons_append]

theorem realResultsFrom_length (tools : List AgentTool) (now : Nat → Int)
    (cs : List ai.ToolCall) (tick : Nat) :
    (realResultsFrom tools now cs tick).length = cs.length := by
  induction cs generalizing tick with
  | nil => rfl
  | cons tc rest ih => simp [realResultsFrom, ih]

theorem skipResultsFrom_length (now : Nat → Int) (cs : List ai.ToolCall) (tick : Nat) :
    (skipResultsFrom now cs tick).length = cs.length := by
  induction cs generalizing tick with
  | nil => rfl
  | cons tc rest ih => simp [skipResultsFrom, ih]

theorem skipResultsFrom_mem (now : Nat → Int) (cs : List ai.ToolCall) (tick : Nat) :
    ∀ tr ∈ skipResultsFrom now cs tick, tr.isError = true ∧
      tr.content = [ai.NewTextContent "Skipped due to queued user message."] := by
  induction cs generalizing tick with
  | nil => intro tr htr; exact absurd htr (List.not_mem_nil tr)
  | cons tc rest ih =>
    intro tr htr
    rcases List.mem_cons.mp htr with h | h
    · rw [h]
      exact ⟨rfl, rfl⟩
    · exact ih (tick + 1) tr h

theorem toolStartIds_append (a b : List AgentEvent) :
    toolStartIds (a ++ b) = toolStartIds a ++ toolStartIds b := by
  unfold toolStartIds
  rw [List.filterMap_append]

theorem toolEndIds_append (a b : List AgentEvent) :
    toolEndIds (a ++ b) = toolEndIds a ++ toolEndIds b := by
  unfold toolEndIds
  rw [List.filterMap_append]

theorem toolStartIds_cons_ne (e : AgentEvent) (rest : List AgentEvent)
    (h : ¬ e.type = ToolExecutionEventStart) :
    toolStartIds (e :: rest) = toolStartIds rest := by
  unfold toolStartIds
  simp only [List.filterMap_cons, if_neg h]

theorem toolStartIds_cons_eq (e : AgentEvent) (rest : List AgentEvent)
    (h : e.type = ToolExecutionEventStart) :
    toolStartIds (e :: rest) = e.toolCallID :: toolStartIds rest := by
  unfold toolStartIds
  simp only [List.filterMap_cons, if_pos h]

theorem toolEndIds_cons_ne (e : AgentEvent) (rest : List AgentEvent)
    (h : ¬ e.type = ToolExecutionEventEnd) :
    toolEndIds (e :: rest) = toolEndIds rest := by
  unfold toolEndIds
  simp only [List.filterMap_cons, if_neg h]

theorem toolEndIds_cons_eq (e : AgentEvent) (rest : List AgentEvent)
    (h : e.type = ToolExecutionEventEnd) :
    toolEndIds (e :: rest) = e.toolCallID :: toolEndIds rest := by
  unfold toolEndIds
  simp only [List.filterMap_cons, if_pos h]

theorem toolStartIds_updates (tc : ai.ToolCall) (l : List AgentToolResult) :
    toolStartIds (l.map (toolUpdateEvent tc)) = [] := by
  induction l with
  | nil => rfl
  | cons u rest ih =>
    rw [List.map_cons,
      toolStartIds_cons_ne _ _ (by
        show ¬ ToolExecutionEventUpdate = ToolExecutionEventStart
        decide)]
    exact ih

theorem toolEndIds_updates (tc : ai.ToolCall) (l : List AgentToolResult) :
    toolEndIds (l.map (toolUpdateEvent tc)) = [] := by
  induction l with
  | nil => rfl
  | cons u rest ih =>
    rw [List.map_cons,
      toolEndIds_cons_ne _ _ (by
        show ¬ ToolExecutionEventUpdate = ToolExecutionEventEnd
        decide)]
    exact ih

theorem toolStartIds_callShape (tc : ai.ToolCall) (updates : List AgentToolResult)
    (res : AgentToolResult) (isErr : Bool) (am : AgentMessage) :
    toolStartIds (toolStartEvent tc :: (updates.map (toolUpdateEvent tc) ++
        [toolEndEvent tc res isErr, msgStartEvent am, msgEndEvent am])) = [tc.id] := by
  rw [toolStartIds_cons_eq _ _ rfl, toolStartIds_append, toolStartIds_updates,
    toolStartIds_cons_ne _ _ (by
      show ¬ ToolExecutionEventEnd = ToolExecutionEventStart
      decide),
    toolStartIds_cons_ne _ _ (by
      show ¬ MessageEventStart = ToolExecutionEventStart
      decide),
    toolStartIds_cons_ne _ _ (by
      show ¬ MessageEventEnd = ToolExecutionEventStart
      decide)]
  rfl

theorem toolEndIds_callShape (tc : ai.ToolCall) (updates : List AgentToolResult)
    (res : AgentToolResult) (isErr : Bool) (am : AgentMessage) :
    toolEndIds (toolStartEvent tc :: (updates.map (toolUpdateEvent tc) ++
        [toolEndEvent tc res isErr, msgStartEvent am, msgEndEvent am])) = [tc.id] := by
  rw [toolEndIds_cons_ne _ _ (by
      show ¬ ToolExecutionEventStart = ToolExecutionEventEnd
      decide),
    toolEndIds_append, toolEndIds_updates,
    toolEndIds_cons_eq _ _ rfl,
    toolEndIds_cons_ne _ _ (by
      show ¬ MessageEventStart = ToolExecutionEventEnd
      decide),
    toolEndIds_cons_ne _ _ (by
      show ¬ MessageEventEnd = ToolExecutionEventEnd
      decide)]
  rfl

theorem toolStartIds_execCallStep (tools : List AgentTool) (tc : ai.ToolCall) (ts : Int) :
    toolStartIds (execCallStep tools tc ts).2 = [tc.id] :=
  toolStartIds_callShape tc _ _ _ _

theorem toolEndIds_execCallStep (tools : List AgentTool) (tc : ai.ToolCall) (ts : Int) :
    toolEndIds (execCallStep tools tc ts).2 = [tc.id] :=
  toolEndIds_callShape tc _ _ _ _

theorem toolStartIds_skipToolCall (tc : ai.ToolCall) (ts : Int) :
    toolStartIds (skipToolCall tc ts).2 = [tc.id] := by
  show toolStartIds [toolStartEvent tc, _, _, _] = [tc.id]
  rw [toolStartIds_cons_eq _ _ rfl,
    toolStartIds_cons_ne _ _ (by
      show ¬ ToolExecutionEventEnd = ToolExecutionEventStart
      decide),
    toolStartIds_cons_ne _ _ (by
      show ¬ MessageEventStart = ToolExecutionEventStart
      decide),
    toolStartIds_cons_ne _ _ (by
      show ¬ MessageEventEnd = ToolExecutionEventStart
      decide)]
  rfl

theorem toolEndIds_skipToolCall (tc : ai.ToolCall) (ts : Int) :
    toolEndIds (skipToolCall tc ts).2 = [tc.id] := by
  show toolEndIds [toolStartEvent tc, _, _, _] = [tc.id]
  rw [toolEndIds_cons_ne _ _ (by
      show ¬ ToolExecutionEventStart = ToolExecutionEventEnd
      decide),
    toolEndIds_cons_eq _ _ rfl,
    toolEndIds_cons_ne _ _ (by
      show ¬ MessageEventStart = ToolExecutionEventEnd
      decide),
    toolEndIds_cons_ne _ _ (by
      show ¬ MessageEventEnd = ToolExecutionEventEnd
      decide)]
  rfl

theorem toolStartIds_realEventsFrom (tools : List AgentTool) (now : Nat → Int)
    (cs : List ai.ToolCall) (tick : Nat) :
    toolStartIds (realEventsFrom tools now cs tick) = cs.map (fun tc => tc.id) := by
  induction cs generalizing tick with
  | nil => rfl
  | cons tc rest ih =>
    simp only [realEventsFrom, toolStartIds_append, toolStartIds_execCallStep, List.map_cons, ih]
    rfl

theorem toolEndIds_realEventsFrom (tools : List AgentTool) (now : Nat → Int)
    (cs : List ai.ToolCall) (tick : Nat) :
    toolEndIds (realEventsFrom tools now cs tick) = cs.map (fun tc => tc.id) := by
  induction cs generalizing tick with
  | nil => rfl
  | cons tc rest ih =>
    simp only [realEventsFrom, toolEndIds_append, toolEndIds_execCallStep, List.map_cons, ih]
    rfl

theorem toolStartIds_skipEventsFrom (now : Nat → Int) (cs : List ai.ToolCall) (tick : Nat) :
    toolStartIds (skipEventsFrom now cs tick) = cs.map (fun tc => tc.id) := by
  induction cs generalizing tick with
  | nil => rfl
  | cons tc rest ih =>
    simp only [skipEventsFrom, toolStartIds_append, toolStartIds_skipToolCall, List.map_cons, ih]
    rfl

theorem toolEndIds_skipEventsFrom (now : Nat → Int) (cs : List ai.ToolCall) (tick : Nat) :
    toolEndIds (skipEventsFrom now cs tick) = cs.map (fun tc => tc.id) := by
  induction cs generalizing tick with
  | nil => rfl
  | cons tc rest ih =>
    simp only [skipEventsFrom, toolEndIds_append, toolEndIds_skipToolCall, List.map_cons, ih]
    rfl

/-- C1: if the steering provider first returns a non-empty list right
after the k-th of N tool calls completes (k < N), `executeToolCalls`
returns exactly N tool-result messages in call order — the first k are
the real outcomes of the executed calls, and every later one is the
synthetic skip with `is_error = true` and the literal text `Skipped due
to queued user message.` — the interrupting steering messages are
returned, and a `tool_execution_start`/`tool_execution_end` pair is
emitted for every call, the skipped ones included. -/
theorem executeToolCalls_skip_symmetry (tools : List AgentTool) (msg : ai.AssistantMessage)
    (st : MsgOracle) (now : Nat → Int) (sIdx tick k : Nat)
    (hk1 : 1 ≤ k) (hkN : k < (extractToolCalls msg.content).length)
    (hbefore : ∀ j, j + 1 < k → isInterrupt (st (sIdx + j)) = false)
    (hat : isInterrupt (st (sIdx + (k - 1))) = true) :
    (executeToolCalls tools msg (some st) now sIdx tick).1.length =
        (extractToolCalls msg.content).length ∧
      (executeToolCalls tools msg (some st) now sIdx tick).1 =
        realResultsFrom tools now ((extractToolCalls msg.content).take k) tick ++
          skipResultsFrom now ((extractToolCalls msg.content).drop k) (tick + k) ∧
      (∀ tr ∈ (executeToolCalls tools msg (some st) now sIdx tick).1.drop k,
        tr.isError = true ∧
        tr.content = [ai.NewTextContent "Skipped due to queued user message."]) ∧
      (executeToolCalls tools msg (some st) now sIdx tick).2.1 =
        steerVal (st (sIdx + (k - 1))) ∧
      toolStartIds (executeToolCalls tools msg (some st) now sIdx tick).2.2.1 =
        (extractToolCalls msg.content).map (fun tc => tc.id) ∧
      toolEndIds (executeToolCalls tools msg (some st) now sIdx tick).2.2.1 =
        (extractToolCalls msg.content).map (fun tc => tc.id) := by
  obtain ⟨k0, rfl⟩ : ∃ k0, k = k0 + 1 := ⟨k - 1, by omega⟩
  have hk0 : k0 + 1 - 1 = k0 := by omega
  rw [hk0] at hat
  have hbefore0 : ∀ j, j < k0 → isInterrupt (st (sIdx + j)) = false := by
    intro j hj
    exact hbefore j (by omega)
  have hk0len : k0 < (extractToolCalls msg.content).length := by omega
  have hmain := execCallsGo_first_interrupt tools st now k0 (extractToolCalls msg.content)
    sIdx tick hk0len hbefore0 hat
  have hexec : executeToolCalls tools msg (some st) now sIdx tick =
      execCallsGo tools (some st) now (extractToolCalls msg.content) sIdx tick := rfl
  rw [hexec, hmain, hk0]
  have hreal_len := realResultsFrom_length tools now
    ((extractToolCalls msg.content).take (k0 + 1)) tick
  have htake_len : ((extractToolCalls msg.content).take (k0 + 1)).length = k0 + 1 :=
    List.length_take_of_le (by omega)
  refine ⟨?_, rfl, ?_, rfl, ?_, ?_⟩
  · simp only [List.length_append, hreal_len, htake_len, skipResultsFrom_length,
      List.length_drop]
    omega
  · intro tr htr
    have hlen : (realResultsFrom tools now ((extractToolCalls msg.content).take (k0 + 1))
        tick).length = k0 + 1 := by rw [hreal_len, htake_len]
    have htr' : tr ∈ (realResultsFrom tools now ((extractToolCalls msg.content).take (k0 + 1))
        tick ++
        skipResultsFrom now ((extractToolCalls msg.content).drop (k0 + 1))
          (tick + (k0 + 1))).drop (k0 + 1) := htr
    rw [drop_append_of_length _ _ _ hlen] at htr'
    exact skipResultsFrom_mem now _ _ tr htr'
  · rw [toolStartIds_append, toolStartIds_realEventsFrom, toolStartIds_skipEventsFrom,
      ← List.map_append, List.take_append_drop]
  · rw [toolEndIds_append, toolEndIds_realEventsFrom, toolEndIds_skipEventsFrom,
      ← List.map_append, List.take_append_drop]

/-- Witness for C1: three calls to a real tool, steering arriving right
after the first call completes (k = 1, N = 3). -/
theorem executeToolCalls_skip_symmetry_witness :
    (executeToolCalls [addTool] threeCallMsg (some alwaysSteer) (fun t => (t : Int)) 0 0).1.length =
        (extractToolCalls threeCallMsg.content).length ∧
      (executeToolCalls [addTool] threeCallMsg (some alwaysSteer) (fun t => (t : Int)) 0 0).1 =
        realResultsFrom [addTool] (fun t => (t : Int))
            ((extractToolCalls threeCallMsg.content).take 1) 0 ++
          skipResultsFrom (fun t => (t : Int)) ((extractToolCalls threeCallMsg.content).drop 1)
            (0 + 1) ∧
      (∀ tr ∈ (executeToolCalls [addTool] threeCallMsg (some alwaysSteer)
          (fun t => (t : Int)) 0 0).1.drop 1,
        tr.isError = true ∧
        tr.content = [ai.NewTextContent "Skipped due to queued user message."]) ∧
      (executeToolCalls [addTool] threeCallMsg (some alwaysSteer)
          (fun t => (t : Int)) 0 0).2.1 = steerVal (alwaysSteer (0 + (1 - 1))) ∧
      toolStartIds (executeToolCalls [addTool] threeCallMsg (some alwaysSteer)
          (fun t => (t : Int)) 0 0).2.2.1 =
        (extractToolCalls threeCallMsg.content).map (fun tc => tc.id) ∧
      toolEndIds (executeToolCalls [addTool] threeCallMsg (some alwaysSteer)
          (fun t => (t : Int)) 0 0).2.2.1 =
        (extractToolCalls threeCallMsg.content).map (fun tc => tc.id) :=
  executeToolCalls_skip_symmetry [addTool] threeCallMsg alwaysSteer (fun t => (t : Int)) 0 0 1
    (by decide) (by decide)
    (fun j hj => absurd (Nat.lt_one_iff.mp hj) (Nat.succ_ne_zero j))
    rfl

/-! ## The continuation-entry claim -/

/-- C5: `AgentLoopContinue` fails exactly when the supplied context has no
messages or its last message is an assistant message; in the failure case
the `Except.error` carries no stream and no events, and otherwise the
entry returns the running loop on the unchanged context, starting with
the `agent_start`/`turn_start` events. -/
theorem agentLoopContinue_fails_iff (agentCtx : AgentContext) (config : AgentLoopConfig)
    (streamFn : Option StreamFn) (now : Nat → Int) (fuel : Nat) :
    ((∃ e, AgentLoopContinue agentCtx config streamFn now fuel = .error e) ↔
      (agentCtx.messages = [] ∨
        ∃ last, agentCtx.messages.getLast? = some last ∧ last.Role = ai.RoleAssistant)) ∧
    (∀ last, agentCtx.messages.getLast? = some last → ¬ last.Role = ai.RoleAssistant →
      AgentLoopContinue agentCtx config streamFn now fuel =
        .ok (runLoop config streamFn agentCtx.systemPrompt agentCtx.tools now fuel
          agentCtx.messages [] [agentStartEvent, turnStartEvent])) := by
  have hnone : agentCtx.messages.getLast? = none →
      AgentLoopContinue agentCtx config streamFn now fuel =
        .error "cannot continue: no messages in context" := by
    intro h
    unfold AgentLoopContinue
    rw [h]
  have hsome : ∀ last, agentCtx.messages.getLast? = some last →
      AgentLoopContinue agentCtx config streamFn now fuel =
        if last.Role = ai.RoleAssistant then
          .error "cannot continue from message role: assistant"
        else
          .ok (runLoop config streamFn agentCtx.systemPrompt agentCtx.tools now fuel
            agentCtx.messages [] [agentStartEvent, turnStartEvent]) := by
    intro last h
    unfold AgentLoopContinue
    rw [h]
  constructor
  · constructor
    · rintro ⟨e, he⟩
      rcases hL : agentCtx.messages.getLast? with _ | last
      · exact Or.inl (List.getLast?_eq_none_iff.mp hL)
      · by_cases hrole : last.Role = ai.RoleAssistant
        · exact Or.inr ⟨last, rfl, hrole⟩
        · rw [hsome last hL, if_neg hrole] at he
          exact Except.noConfusion he
    · intro h
      rcases h with hnil | ⟨last, hL, hrole⟩
      · exact ⟨_, hnone (List.getLast?_eq_none_iff.mpr hnil)⟩
      · exact ⟨_, by rw [hsome last hL, if_pos hrole]⟩
  · intro last hL hrole
    rw [hsome last hL, if_neg hrole]

/-- Witness for C5: a context whose last message is a user message starts
the loop normally. -/
theorem agentLoopContinue_fails_iff_witness :
    AgentLoopContinue
        { messages := [NewAgentMessageFromMessage
            { user := some { content := [ai.NewTextContent "hi"], timestamp := 0 } }] }
        { model := { id := "m" }, convertToLLM := DefaultConvertToLLM }
        none (fun _ => 0) 0 =
      .ok (runLoop { model := { id := "m" }, convertToLLM := DefaultConvertToLLM } none
        "" [] (fun _ => 0) 0
        [NewAgentMessageFromMessage
          { user := some { content := [ai.NewTextContent "hi"], timestamp := 0 } }]
        [] [agentStartEvent, turnStartEvent]) :=
  (agentLoopContinue_fails_iff
    { messages := [NewAgentMessageFromMessage
        { user := some { content := [ai.NewTextContent "hi"], timestamp := 0 } }] }
    { model := { id := "m" }, convertToLLM := DefaultConvertToLLM }
    none (fun _ => 0) 0).2
    (NewAgentMessageFromMessage
      { user := some { content := [ai.NewTextContent "hi"], timestamp := 0 } })
    rfl (by decide)

/-! ## The message-ledger claim -/

theorem msgEnds_append (a b : List AgentEvent) :
    msgEnds (a ++ b) = msgEnds a ++ msgEnds b := by
  unfold msgEnds
  rw [List.filterMap_append]

theorem msgEnds_cons_ne (e : AgentEvent) (r : List AgentEvent)
    (h : ¬ e.type = MessageEventEnd) : msgEnds (e :: r) = msgEnds r := by
  unfold msgEnds
  simp only [List.filterMap_cons, if_neg h]

theorem msgEnds_msgEnd (m : AgentMessage) (r : List AgentEvent) :
    msgEnds (msgEndEvent m :: r) = m :: msgEnds r := rfl

theorem msgEnds_pendingEvents (msgs : List AgentMessage) :
    msgEnds (pendingEvents msgs) = msgs := by
  induction msgs with
  | nil => rfl
  | cons m rest ih =>
    show msgEnds (msgStartEvent m :: msgEndEvent m :: pendingEvents rest) = m :: rest
    rw [msgEnds_cons_ne _ _ (by
        show ¬ MessageEventStart = MessageEventEnd
        decide),
      msgEnds_msgEnd, ih]

theorem msgEnds_updates (tc : ai.ToolCall) (l : List AgentToolResult) :
    msgEnds (l.map (toolUpdateEvent tc)) = [] := by
  induction l with
  | nil => rfl
  | cons u rest ih =>
    rw [List.map_cons,
      msgEnds_cons_ne _ _ (by
        show ¬ ToolExecutionEventUpdate = MessageEventEnd
        decide)]
    exact ih

theorem msgEnds_callShape (tc : ai.ToolCall) (updates : List AgentToolResult)
    (res : AgentToolResult) (isErr : Bool) (am : AgentMessage) :
    msgEnds (toolStartEvent tc :: (updates.map (toolUpdateEvent tc) ++
        [toolEndEvent tc res isErr, msgStartEvent am, msgEndEvent am])) = [am] := by
  rw [msgEnds_cons_ne _ _ (by
      show ¬ ToolExecutionEventStart = MessageEventEnd
      decide),
    msgEnds_append, msgEnds_updates,
    msgEnds_cons_ne _ _ (by
      show ¬ ToolExecutionEventEnd = MessageEventEnd
      decide),
    msgEnds_cons_ne _ _ (by
      show ¬ MessageEventStart = MessageEventEnd
      decide),
    msgEnds_msgEnd]
  rfl

theorem msgEnds_skipShape (tc : ai.ToolCall) (res : AgentToolResult) (am : AgentMessage) :
    msgEnds [toolStartEvent tc, toolEndEvent tc res true, msgStartEvent am, msgEndEvent am] =
      [am] := by
  rw [msgEnds_cons_ne _ _ (by
      show ¬ ToolExecutionEventStart = MessageEventEnd
      decide),
    msgEnds_cons_ne _ _ (by
      show ¬ ToolExecutionEventEnd = MessageEventEnd
      decide),
    msgEnds_cons_ne _ _ (by
      show ¬ MessageEventStart = MessageEventEnd
      decide),
    msgEnds_msgEnd]
  rfl

theorem msgEnds_execCallStep (tools : List AgentTool) (tc : ai.ToolCall) (ts : Int) :
    msgEnds (execCallStep tools tc ts).2 =
      [NewAgentMessageFromMessage { toolResult := some (execCallStep tools tc ts).1 }] :=
  msgEnds_callShape tc _ _ _ _

theorem msgEnds_skipToolCall (tc : ai.ToolCall) (ts : Int) :
    msgEnds (skipToolCall tc ts).2 =
      [NewAgentMessageFromMessage { toolResult := some (skipToolCall tc ts).1 }] :=
  msgEnds_skipShape tc _ _

theorem skipAll_msgEnds (now : Nat → Int) (cs : List ai.ToolCall) (tick : Nat) :
    msgEnds (skipAll now cs tick).2.1 =
      (skipAll now cs tick).1.map
        (fun r => NewAgentMessageFromMessage { toolResult := some r }) := by
  induction cs generalizing tick with
  | nil => rfl
  | cons tc rest ih =>
    simp only [skipAll]
    rw [msgEnds_append, msgEnds_skipToolCall, ih (tick + 1), List.map_cons]
    rfl

theorem execCallsGo_msgEnds (tools : List AgentTool) (gs : Option MsgOracle)
    (now : Nat → Int) (cs : List ai.ToolCall) :
    ∀ (sIdx tick : Nat),
      msgEnds (execCallsGo tools gs now cs sIdx tick).2.2.1 =
        (execCallsGo tools gs now cs sIdx tick).1.map
          (fun r => NewAgentMessageFromMessage { toolResult := some r }) := by
  induction cs with
  | nil => intro sIdx tick; rfl
  | cons tc rest ih =>
    intro sIdx tick
    rcases gs with _ | st
    · simp only [execCallsGo]
      rw [msgEnds_append, msgEnds_execCallStep, ih sIdx (tick + 1), List.map_cons]
      rfl
    · by_cases hInt : isInterrupt (st sIdx) = true
      · simp only [execCallsGo, hInt, if_true]
        rw [msgEnds_append, msgEnds_execCallStep, skipAll_msgEnds, List.map_cons]
        rfl
      · simp only [execCallsGo, hInt, if_false, Bool.false_eq_true]
        rw [msgEnds_append, msgEnds_execCallStep, ih (sIdx + 1) (tick + 1), List.map_cons]
        rfl

theorem isDelta_not_terminal {t : String} (h : isDeltaEventType t = true) :
    (t == ai.EventDone || t == ai.EventError) = false := by
  unfold isDeltaEventType at h
  simp only [Bool.or_eq_true, beq_iff_eq] at h
  rcases h with ((((((((h | h) | h) | h) | h) | h) | h) | h) | h)
  all_goals (subst h; decide)

theorem hasTerminal_cons_of_not {e : ai.AssistantMessageEvent}
    {rest : List ai.AssistantMessageEvent} (hterm : hasTerminal (e :: rest) = true)
    (hne : (e.type == ai.EventDone || e.type == ai.EventError) = false) :
    hasTerminal rest = true := by
  unfold hasTerminal at hterm ⊢
  simp only [List.any_cons, Bool.or_eq_true] at hterm
  rcases Bool.or_eq_false_iff.mp hne with ⟨hd, he⟩
  rcases hterm with (h | h) | h
  · rw [hd] at h
    exact absurd h (by decide)
  · rw [he] at h
    exact absurd h (by decide)
  · exact h

theorem consumeStream_finished_msgEnds (endR : Option (Option ai.AssistantMessage)) :
    ∀ (evts : List ai.AssistantMessageEvent) (pmsg : Option ai.AssistantMessage)
      (addedP : Bool) (ctx : List AgentMessage), hasTerminal evts = true →
      ∀ f c es, consumeStream endR evts pmsg addedP ctx = .finished f c es →
        msgEnds es = [NewAgentMessageFromMessage { assistant := f }] := by
  intro evts
  induction evts with
  | nil =>
    intro pmsg addedP ctx hterm
    simp [hasTerminal] at hterm
  | cons e rest ih =>
    intro pmsg addedP ctx hterm f c es hrun
    unfold consumeStream at hrun
    by_cases h1 : e.type = ai.EventStart
    · rw [if_pos h1] at hrun
      have hterm' : hasTerminal rest = true := by
        refine hasTerminal_cons_of_not hterm ?_
        rw [h1]
        decide
      simp only [] at hrun
      rcases hrec : consumeStream endR rest e.partialMsg true
          (ctx ++ [NewAgentMessageFromMessage { assistant := e.partialMsg }]) with
        err | _ | ⟨f', c', es'⟩
      · rw [hrec] at hrun
        exact absurd hrun (by simp [prependEvent])
      · rw [hrec] at hrun
        exact absurd hrun (by simp [prependEvent])
      · rw [hrec] at hrun
        simp only [prependEvent] at hrun
        injection hrun with hf hc hes
        subst hf
        subst hes
        rw [msgEnds_cons_ne _ _ (by
          show ¬ MessageEventStart = MessageEventEnd
          decide)]
        exact ih e.partialMsg true _ hterm' f' c' es' hrec
    · rw [if_neg h1] at hrun
      by_cases h2 : isDeltaEventType e.type = true
      · rw [if_pos h2] at hrun
        have hterm' : hasTerminal rest = true :=
          hasTerminal_cons_of_not hterm (isDelta_not_terminal h2)
        rcases pmsg with _ | p
        · exact ih none addedP ctx hterm' f c es hrun
        · simp only [] at hrun
          rcases hrec : consumeStream endR rest e.partialMsg addedP
              (if addedP = true then
                setLast ctx (NewAgentMessageFromMessage { assistant := e.partialMsg })
              else ctx) with err | _ | ⟨f', c', es'⟩
          · rw [hrec] at hrun
            exact absurd hrun (by simp [prependEvent])
          · rw [hrec] at hrun
            exact absurd hrun (by simp [prependEvent])
          · rw [hrec] at hrun
            simp only [prependEvent] at hrun
            injection hrun with hf hc hes
            subst hf
            subst hes
            rw [msgEnds_cons_ne _ _ (by
              show ¬ MessageEventUpdate = MessageEventEnd
              decide)]
            exact ih e.partialMsg addedP _ hterm' f' c' es' hrec
      · rw [if_neg h2] at hrun
        by_cases h3 : (e.type = ai.EventDone ∨ e.type = ai.EventError)
        · rw [if_pos h3] at hrun
          simp only [] at hrun
          injection hrun with hf hc hes
          subst hf
          subst hes
          cases addedP with
          | true =>
            rw [if_pos rfl, List.nil_append, msgEnds_msgEnd]
            rfl
          | false =>
            rw [if_neg (by decide), List.singleton_append,
              msgEnds_cons_ne _ _ (by
                show ¬ MessageEventStart = MessageEventEnd
                decide),
              msgEnds_msgEnd]
            rfl
        · rw [if_neg h3] at hrun
          have hterm' : hasTerminal rest = true := by
            refine hasTerminal_cons_of_not hterm ?_
            simp only [Bool.or_eq_false_iff, beq_eq_false_iff_ne, ne_eq]
            constructor
            · intro hcon
              exact h3 (Or.inl hcon)
            · intro hcon
              exact h3 (Or.inr hcon)
          exact ih pmsg addedP ctx hterm' f c es hrun

theorem streamAssistantResponse_finished_msgEnds (config : AgentLoopConfig) (sf : StreamFn)
    (sysPrompt : String) (ctxMessages : List AgentMessage) (tools : List AgentTool)
    (hterm : ∀ m c o, hasTerminal ((sf m c o).events) = true) :
    ∀ f c es, streamAssistantResponse config (some sf) sysPrompt ctxMessages tools =
        .finished f c es →
      msgEnds es = [NewAgentMessageFromMessage { assistant := f }] := by
  intro f c es hrun
  unfold streamAssistantResponse at hrun
  simp only [] at hrun
  split at hrun
  · simp at hrun
  · split at hrun
    · simp at hrun
    · exact consumeStream_finished_msgEnds _ _ _ _ _ (hterm _ _ _) f c es hrun

theorem msgEnds_turnEnd (m : AgentMessage) (trs : List ai.ToolResultMessage) :
    msgEnds [turnEndEvent m trs] = [] := by
  rw [msgEnds_cons_ne _ _ (by
      show ¬ TurnEventEnd = MessageEventEnd
      decide)]
  rfl

theorem msgEnds_endPair (m : AgentMessage) (trs : List ai.ToolResultMessage)
    (msgs : List AgentMessage) :
    msgEnds [turnEndEvent m trs, agentEndEvent msgs] = [] := by
  rw [msgEnds_cons_ne _ _ (by
      show ¬ TurnEventEnd = MessageEventEnd
      decide),
    msgEnds_cons_ne _ _ (by
      show ¬ AgentEventEnd = MessageEventEnd
      decide)]
  rfl

theorem getLast_endPair (A : List AgentEvent) (x y : AgentEvent) :
    (A ++ [x, y]).getLast? = some y := by
  rw [List.getLast?_append_cons]
  rfl

theorem executeToolCalls_msgEnds (tools : List AgentTool) (m : ai.AssistantMessage)
    (gs : Option MsgOracle) (now : Nat → Int) (sIdx tick : Nat) :
    msgEnds (executeToolCalls tools m gs now sIdx tick).2.2.1 =
      (executeToolCalls tools m gs now sIdx tick).1.map
        (fun r => NewAgentMessageFromMessage { toolResult := some r }) :=
  execCallsGo_msgEnds tools gs now (extractToolCalls m.content) sIdx tick

theorem turnPrep_inv (st : RunState) (hinv : st.newMessages = msgEnds st.events) :
    (turnPrep st).newMessages = msgEnds (turnPrep st).events := by
  unfold turnPrep
  cases hft : st.firstTurn with
  | true =>
    simp only [hft, Bool.not_true]
    rw [if_neg (by decide)]
    show st.newMessages ++ st.pending = msgEnds (st.events ++ pendingEvents st.pending)
    rw [msgEnds_append, msgEnds_pendingEvents, hinv]
  | false =>
    simp only [hft, Bool.not_false]
    rw [if_pos trivial]
    show st.newMessages ++ st.pending =
      msgEnds ((st.events ++ [turnStartEvent]) ++ pendingEvents st.pending)
    have h0 : msgEnds [turnStartEvent] = [] := rfl
    rw [msgEnds_append, msgEnds_append, msgEnds_pendingEvents, h0, hinv, List.append_nil]

theorem runTurn_cases (config : AgentLoopConfig) (sf : StreamFn) (sysPrompt : String)
    (tools : List AgentTool) (now : Nat → Int) (st0 : RunState)
    (hterm : ∀ m c o, hasTerminal ((sf m c o).events) = true)
    (hinv : st0.newMessages = msgEnds st0.events) :
    stepOutOK config sf sysPrompt tools now (runTurn config (some sf) sysPrompt tools now st0) := by
  have hinv' := turnPrep_inv st0 hinv
  unfold runTurn
  simp only []
  generalize turnPrep st0 = p at hinv' ⊢
  rcases hs : streamAssistantResponse config (some sf) sysPrompt p.ctxMessages tools with
    e | _ | ⟨fm, ctx', evs⟩
  · simp only [stepOutOK]
    refine ⟨getLast_endPair _ _ _,
      Or.inr ⟨p.ctxMessages, e, p.tick, hs, ?_⟩,
      fun hno => absurd hs (hno p.ctxMessages e)⟩
    rw [msgEnds_append, msgEnds_endPair, ← hinv']
    simp
  · exact trivial
  · rcases fm with _ | message
    · exact trivial
    · have hms := streamAssistantResponse_finished_msgEnds config sf sysPrompt p.ctxMessages
        tools hterm (some message) ctx' evs hs
      simp only []
      split
    -- stop reason error/aborted: the turn ends, ledger exact
      · simp only [stepOutOK]
        refine ⟨getLast_endPair _ _ _, Or.inl ?_, fun _ => ?_⟩
        · rw [msgEnds_append, msgEnds_append, msgEnds_endPair, hms, ← hinv']
          simp
        · rw [msgEnds_append, msgEnds_append, msgEnds_endPair, hms, ← hinv']
          simp
    -- tool calls present
      · split
        · split
          · simp only [stepOutOK]
            rw [msgEnds_append, msgEnds_append, msgEnds_append, hms,
              executeToolCalls_msgEnds, msgEnds_turnEnd, ← hinv']
            simp
          · split
            · simp only [stepOutOK]
              rw [msgEnds_append, msgEnds_append, msgEnds_append, hms,
                executeToolCalls_msgEnds, msgEnds_turnEnd, ← hinv']
              simp
            · simp only [stepOutOK]
              rw [msgEnds_append, msgEnds_append, msgEnds_append, hms,
                executeToolCalls_msgEnds, msgEnds_turnEnd, ← hinv']
              simp
        · split
          · simp only [stepOutOK]
            rw [msgEnds_append, msgEnds_append, hms, msgEnds_turnEnd, ← hinv']
            simp
          · simp only [stepOutOK]
            rw [msgEnds_append, msgEnds_append, hms, msgEnds_turnEnd, ← hinv']
            simp

theorem msgEnds_agentEnd (msgs : List AgentMessage) :
    msgEnds [agentEndEvent msgs] = [] := by
  rw [msgEnds_cons_ne _ _ (by
      show ¬ AgentEventEnd = MessageEventEnd
      decide)]
  rfl

theorem runLoopGo_ledger (config : AgentLoopConfig) (sf : StreamFn) (sysPrompt : String)
    (tools : List AgentTool) (now : Nat → Int)
    (hterm : ∀ m c o, hasTerminal ((sf m c o).events) = true) :
    ∀ (fuel : Nat) (st : RunState), st.newMessages = msgEnds st.events →
      ∀ E R, runLoopGo config (some sf) sysPrompt tools now fuel st = some (E, R) →
        LedgerOK config sf sysPrompt tools now E R := by
  intro fuel
  induction fuel with
  | zero =>
    intro st hinv E R hrun
    exact Option.noConfusion hrun
  | succ fuel ih =>
    intro st hinv E R hrun
    have hend : LedgerOK config sf sysPrompt tools now
        (st.events ++ [agentEndEvent st.newMessages]) st.newMessages := by
      have hx : st.newMessages = msgEnds (st.events ++ [agentEndEvent st.newMessages]) := by
        rw [msgEnds_append, msgEnds_agentEnd, ← hinv]
        simp
      exact ⟨List.getLast?_concat _, Or.inl hx, fun _ => hx⟩
    have hcases := runTurn_cases config sf sysPrompt tools now st hterm hinv
    unfold runLoopGo at hrun
    split at hrun
    · split at hrun
      · rename_i evs result heq
        rw [heq] at hcases
        injection hrun with h2
        injection h2 with h3 h4
        subst h3
        subst h4
        exact hcases
      · exact Option.noConfusion hrun
      · rename_i st' heq
        rw [heq] at hcases
        exact ih st' hcases E R hrun
    · split at hrun
      · split at hrun
        · split at hrun
          · refine ih _ ?_ E R hrun
            exact hinv
          · injection hrun with h2
            injection h2 with h3 h4
            subst h3
            subst h4
            exact hend
        · injection hrun with h2
          injection h2 with h3 h4
          subst h3
          subst h4
          exact hend
      · injection hrun with h2
        injection h2 with h3 h4
        subst h3
        subst h4
        exact hend

/-- C2: the message ledger of the agent loop, in its corrected form.  For
every finished run of `AgentLoop` whose provider stream always delivers a
terminal `done`/`error` event (the provider contract of §4.3), `agent_end`
is the last event and carries the run's result, and exactly one of two
cases holds (they differ in list length): either the result equals the
concatenation, in event order, of the messages finalised by `message_end`
events; or the run's context-transform/conversion hooks really error —
some context makes `streamAssistantResponse` return a hook error — and
the result exceeds the `message_end` concatenation by exactly the one
trailing synthetic error assistant message built from that hook error,
which is never finalised by a `message_end`.  In particular, whenever the
hooks cannot error (so every provider-error, stop, abort or tool-call
run), the last conjunct of `LedgerOK` gives exact ledger equality.  The
original claim (exact equality even on hook-error runs) is refuted by
`agentLoop_ledger_counterexample`. -/
theorem agentLoop_message_ledger (prompts : List AgentMessage) (agentCtx : AgentContext)
    (config : AgentLoopConfig) (sf : StreamFn) (now : Nat → Int) (fuel : Nat)
    (hterm : ∀ m c o, hasTerminal ((sf m c o).events) = true) :
    ∀ E R, AgentLoop prompts agentCtx config (some sf) now fuel = some (E, R) →
      LedgerOK config sf agentCtx.systemPrompt agentCtx.tools now E R := by
  intro E R hrun
  unfold AgentLoop runLoop at hrun
  have hinv0 : prompts =
      msgEnds ([agentStartEvent, turnStartEvent] ++ pendingEvents prompts) := by
    rw [msgEnds_append, msgEnds_pendingEvents]
    rfl
  rcases hg : config.getSteeringMessages with _ | g
  · rw [hg] at hrun
    exact runLoopGo_ledger config sf agentCtx.systemPrompt agentCtx.tools now hterm fuel _
      hinv0 E R hrun
  · rw [hg] at hrun
    exact runLoopGo_ledger config sf agentCtx.systemPrompt agentCtx.tools now hterm fuel _
      hinv0 E R hrun

/-- C2 counterexample to the original claim: a run terminated by a
conversion hook error finishes with an `agent_end` whose message list has
one more message (the synthetic error assistant message) than the
`message_end` concatenation — the error message is never finalised by a
`message_end` event.  The run uses a well-behaved provider stream (the
hook fails before the stream is ever invoked), so it also shows that a
hook-error run inside the corrected theorem's scope falls in the
second, extra-message case of `LedgerOK`'s disjunction. -/
theorem agentLoop_ledger_counterexample :
    ∃ E R, AgentLoop [ledgerPrompt] {} badConvertConfig (some ledgerStreamFn) (fun _ => 0) 1 =
        some (E, R) ∧ ¬ R = msgEnds E := by
  refine ⟨_, _, rfl, ?_⟩
  intro h
  have hl := congrArg List.length h
  revert hl
  decide

theorem agentLoop_message_ledger_witness :
    ∃ E R, AgentLoop [ledgerPrompt] {} okConfig (some ledgerStreamFn) (fun _ => 0) 2 =
        some (E, R) ∧ LedgerOK okConfig ledgerStreamFn "" [] (fun _ => 0) E R := by
  refine ⟨_, _, rfl, ?_⟩
  exact agentLoop_message_ledger [ledgerPrompt] {} okConfig ledgerStreamFn (fun _ => 0) 2
    (fun _ _ _ => rfl) _ _ rfl

end agent
